import Mathlib

/-!
Verification of the lyst repository's core components against its
natural-language specification.

Shallow embedding conventions:
* Bytes are `Nat` values; producers keep them below 256.
* Machine arithmetic is modelled on `Nat` with an explicit `% 2^w`
  wherever the Rust source can overflow (release-mode wrapping).
* Fallible Rust code returns `Except`/`Option`; Rust panics (asserts,
  `panic!`, `todo!`, out-of-bounds `bytes::Buf` reads) are modelled as
  distinguished outcomes.
-/

namespace PackBits

/-- Error type of the packbits crate.  `decode.rs` constructs
`Error::DanglingLiteral(remaining)` with the remaining byte count as
payload (the enum declaration in one revision of `lib.rs` omits the
payload; the decoder and the spec both carry it). -/
inductive Error where
  | DanglingLiteral (remaining : Nat)
  | DanglingRepeated
deriving DecidableEq, Repr

/-- `enum State` of `packbits/src/decode.rs`. -/
inductive DecState where
  | Idle
  | Literal (remaining : Nat)
  | Repeat (count : Nat)
deriving DecidableEq, Repr

/-- Termination rank for `Decoder.decode_on`: a `Literal` state may take one
step that consumes no input (when `remaining = 0`) before becoming `Idle`. -/
def decRank : DecState → Nat
  | .Literal _ => 1
  | _ => 0

/-- `Decoder::decode_on` of `packbits/src/decode.rs`, for one input buffer.
The input list plays the role of the (single-chunk) `Buf`; the returned list
is everything appended to `output`.  The `Idle` branch reads the control byte
as an `i8`: values `0..=127` start a literal of `1 + byte` bytes, `-128`
(byte 128) is a no-op, and `-127..=-1` (bytes 129..=255) start a repeat of
`(-byte) + 1 = (256 - byte) + 1` copies.  The `Literal` branch copies
`min chunk.len remaining` bytes at once, as the source does. -/
def Decoder.decode_on : DecState → List Nat → DecState × List Nat
  | s, [] => (s, [])
  | .Idle, byte :: rest =>
      if byte < 128 then
        Decoder.decode_on (.Literal (1 + byte)) rest
      else if byte = 128 then
        Decoder.decode_on .Idle rest
      else
        Decoder.decode_on (.Repeat ((256 - byte) + 1)) rest
  | .Repeat count, byte :: rest =>
      let r := Decoder.decode_on .Idle rest
      (r.1, List.replicate count byte ++ r.2)
  | .Literal remaining, byte :: rest =>
      let chunk := byte :: rest
      let size := min chunk.length remaining
      let next : DecState :=
        if remaining - size = 0 then .Idle else .Literal (remaining - size)
      let r := Decoder.decode_on next (chunk.drop size)
      (r.1, chunk.take size ++ r.2)
termination_by s l => (l.length, decRank s)
decreasing_by
  · exact Prod.Lex.left _ _ (by simp)
  · exact Prod.Lex.left _ _ (by simp)
  · exact Prod.Lex.left _ _ (by simp)
  · exact Prod.Lex.left _ _ (by simp)
  · rcases Nat.eq_zero_or_pos remaining with h0 | hpos
    · subst h0
      simp only [Nat.min_zero, List.drop_zero]
      exact Prod.Lex.right _ (by simp [decRank])
    · apply Prod.Lex.left
      have : 0 < min (byte :: rest).length remaining := by
        simp [Nat.lt_min]; omega
      simp only [List.length_drop]
      omega

/-- `Decoder::finalize` of `packbits/src/decode.rs`. -/
def Decoder.finalize : DecState → Except Error Unit
  | .Idle => .ok ()
  | .Repeat _ => .error .DanglingRepeated
  | .Literal remaining => .error (.DanglingLiteral remaining)

@[simp] lemma decode_on_nil (s : DecState) : Decoder.decode_on s [] = (s, []) := by
  simp [Decoder.decode_on]

lemma decode_on_idle_literal (b : Nat) (rest : List Nat) (h : b < 128) :
    Decoder.decode_on .Idle (b :: rest) = Decoder.decode_on (.Literal (1 + b)) rest := by
  rw [Decoder.decode_on]
  simp [h]

lemma decode_on_idle_nop (rest : List Nat) :
    Decoder.decode_on .Idle (128 :: rest) = Decoder.decode_on .Idle rest := by
  rw [Decoder.decode_on]
  simp

lemma decode_on_idle_repeat (b : Nat) (rest : List Nat) (h : 128 < b) :
    Decoder.decode_on .Idle (b :: rest) =
      Decoder.decode_on (.Repeat ((256 - b) + 1)) rest := by
  rw [Decoder.decode_on]
  have h1 : ¬ b < 128 := by omega
  have h2 : ¬ b = 128 := by omega
  simp [h1, h2]

lemma decode_on_repeat (c b : Nat) (rest : List Nat) :
    Decoder.decode_on (.Repeat c) (b :: rest) =
      ((Decoder.decode_on .Idle rest).1,
        List.replicate c b ++ (Decoder.decode_on .Idle rest).2) := by
  rw [Decoder.decode_on]

lemma decode_on_literal_short (r : Nat) (l : List Nat) (h : l.length < r) :
    Decoder.decode_on (.Literal r) l = (.Literal (r - l.length), l) := by
  cases l with
  | nil => simp
  | cons b rest =>
      rw [Decoder.decode_on]
      have hlen : rest.length + 1 < r := by
        simp only [List.length_cons] at h; omega
      have hmin : min (rest.length + 1) r = rest.length + 1 :=
        min_eq_left (le_of_lt hlen)
      have hne : ¬ (r - (rest.length + 1) = 0) := by omega
      have hdrop : List.drop (rest.length + 1) (b :: rest) = [] := by simp
      have htake : List.take (rest.length + 1) (b :: rest) = b :: rest := by simp
      simp [hmin, hne, hdrop, htake]

lemma decode_on_literal_zero (b : Nat) (rest : List Nat) :
    Decoder.decode_on (.Literal 0) (b :: rest) = Decoder.decode_on .Idle (b :: rest) := by
  conv_lhs => rw [Decoder.decode_on]
  simp

/-- The decoder's `Idle` transition on one control byte. -/
def idleStep (byte : Nat) : DecState :=
  if byte < 128 then .Literal (1 + byte)
  else if byte = 128 then .Idle
  else .Repeat ((256 - byte) + 1)

/-- Per-byte restatement of the decoder transition; proved equivalent to
`Decoder.decode_on` below (the source's bulk literal copy processes
`min chunk.len remaining` bytes at once, which per byte is one byte each). -/
def decodeStep : DecState → Nat → DecState × List Nat
  | .Idle, byte => (idleStep byte, [])
  | .Literal 0, byte => (idleStep byte, [])
  | .Literal (r + 1), byte => (if r = 0 then .Idle else .Literal r, [byte])
  | .Repeat count, byte => (.Idle, List.replicate count byte)

/-- Folding `decodeStep` over an input list. -/
def decodeFold : DecState → List Nat → DecState × List Nat
  | s, [] => (s, [])
  | s, byte :: rest =>
      let p := decodeStep s byte
      let q := decodeFold p.1 rest
      (q.1, p.2 ++ q.2)

@[simp] lemma decodeFold_nil (s : DecState) : decodeFold s [] = (s, []) := rfl

lemma decodeFold_append (xs ys : List Nat) : ∀ s : DecState,
    decodeFold s (xs ++ ys) =
      ((decodeFold (decodeFold s xs).1 ys).1,
        (decodeFold s xs).2 ++ (decodeFold (decodeFold s xs).1 ys).2) := by
  induction xs with
  | nil => intro s; simp
  | cons b rest ih =>
      intro s
      simp only [List.cons_append, decodeFold, List.append_eq, ih (decodeStep s b).1,
        List.append_assoc]

lemma decodeFold_literal_le (l : List Nat) : ∀ r : Nat, 0 < r → l.length ≤ r →
    decodeFold (.Literal r) l =
      (if r = l.length then .Idle else .Literal (r - l.length), l) := by
  induction l with
  | nil =>
      intro r hr _
      simp [hr.ne']
  | cons b rest ih =>
      intro r hr hlen
      obtain ⟨rk, rfl⟩ : ∃ rk, r = rk + 1 := ⟨r - 1, by omega⟩
      simp only [decodeFold, decodeStep]
      rcases Nat.eq_zero_or_pos rk with h0 | hpos
      · subst h0
        have : rest = [] := by
          have hlen0 : rest.length = 0 := by
            simp only [List.length_cons] at hlen; omega
          simpa using List.length_eq_zero.mp hlen0
        subst this
        simp
      · have hlen' : rest.length ≤ rk := by
          simp only [List.length_cons] at hlen; omega
        simp only [if_neg (by omega : ¬ rk = 0), ih rk hpos hlen']
        by_cases he : rk = rest.length
        · simp [he]
        · have h1 : ¬ (rk + 1 = (b :: rest).length) := by
            simp only [List.length_cons]; omega
          have h2 : rk + 1 - (b :: rest).length = rk - rest.length := by
            simp only [List.length_cons]; omega
          simp [he, h1, h2]

lemma decodeFold_literal_zero (l : List Nat) (h : l ≠ []) :
    decodeFold (.Literal 0) l = decodeFold .Idle l := by
  cases l with
  | nil => exact absurd rfl h
  | cons b rest => simp only [decodeFold, decodeStep]

/-- `decodeFold` analogue of consuming a full literal prefix. -/
lemma decodeFold_literal_split (r : Nat) (l : List Nat) (h1 : 0 < r) (h2 : r ≤ l.length) :
    decodeFold (.Literal r) l =
      ((decodeFold .Idle (l.drop r)).1,
        l.take r ++ (decodeFold .Idle (l.drop r)).2) := by
  have hsplit : l = l.take r ++ l.drop r := (List.take_append_drop r l).symm
  conv_lhs => rw [hsplit]
  rw [decodeFold_append]
  have htake_len : (l.take r).length = r := by simp [List.length_take, h2]
  rw [decodeFold_literal_le (l.take r) r h1 (by omega)]
  simp [htake_len]

/-- `Decoder.decode_on` agrees with the per-byte fold. -/
lemma decode_on_eq_decodeFold (s : DecState) (l : List Nat) :
    Decoder.decode_on s l = decodeFold s l := by
  suffices h : ∀ n : Nat, ∀ l : List Nat, l.length ≤ n → ∀ s : DecState,
      Decoder.decode_on s l = decodeFold s l from h l.length l le_rfl s
  intro n
  induction n with
  | zero =>
      intro l hl s
      have : l = [] := List.length_eq_zero.mp (by omega)
      subst this
      simp
  | succ n ih =>
      intro l hl s
      cases l with
      | nil => simp
      | cons b rest =>
          have hrest : rest.length ≤ n := by simp at hl; omega
          have hIdle : Decoder.decode_on .Idle (b :: rest) = decodeFold .Idle (b :: rest) := by
            by_cases h1 : b < 128
            · rw [decode_on_idle_literal b rest h1, ih rest hrest]
              simp [decodeFold, decodeStep, idleStep, h1]
            · by_cases h2 : b = 128
              · subst h2
                rw [decode_on_idle_nop, ih rest hrest]
                simp [decodeFold, decodeStep, idleStep]
              · rw [decode_on_idle_repeat b rest (by omega), ih rest hrest]
                simp [decodeFold, decodeStep, idleStep, h1, h2]
          cases s with
          | Idle => exact hIdle
          | Repeat c =>
              rw [decode_on_repeat, ih rest hrest]
              simp [decodeFold, decodeStep]
          | Literal r =>
              rcases Nat.eq_zero_or_pos r with h0 | hpos
              · subst h0
                rw [decode_on_literal_zero, hIdle,
                  decodeFold_literal_zero (b :: rest) (by simp)]
              · by_cases hle : r ≤ (b :: rest).length
                · have hdroplen : ((b :: rest).drop r).length ≤ n := by
                    simp only [List.length_drop, List.length_cons] at *
                    omega
                  have hunfold : Decoder.decode_on (.Literal r) (b :: rest) =
                      ((Decoder.decode_on .Idle ((b :: rest).drop r)).1,
                        (b :: rest).take r ++
                          (Decoder.decode_on .Idle ((b :: rest).drop r)).2) := by
                    rw [Decoder.decode_on]
                    have hmin : min (rest.length + 1) r = r :=
                      min_eq_right (by simp only [List.length_cons] at hle; omega)
                    simp [hmin]
                  rw [decodeFold_literal_split r (b :: rest) hpos hle, hunfold,
                    ih _ hdroplen]
                · have hshort : (b :: rest).length < r := by omega
                  have hne : ¬ r = (b :: rest).length := by omega
                  rw [decode_on_literal_short r (b :: rest) hshort,
                    decodeFold_literal_le (b :: rest) r hpos (by omega), if_neg hne]

lemma decode_on_append (s : DecState) (xs ys : List Nat) :
    Decoder.decode_on s (xs ++ ys) =
      ((Decoder.decode_on (Decoder.decode_on s xs).1 ys).1,
        (Decoder.decode_on s xs).2 ++
          (Decoder.decode_on (Decoder.decode_on s xs).1 ys).2) := by
  simp only [decode_on_eq_decodeFold]
  exact decodeFold_append xs ys s

lemma decode_on_literal_long (r : Nat) (l : List Nat) (h1 : 0 < r) (h2 : r ≤ l.length) :
    Decoder.decode_on (.Literal r) l =
      ((Decoder.decode_on .Idle (l.drop r)).1,
        l.take r ++ (Decoder.decode_on .Idle (l.drop r)).2) := by
  have hsplit : l = l.take r ++ l.drop r := (List.take_append_drop r l).symm
  conv_lhs => rw [hsplit]
  rw [decode_on_append]
  have htake_len : (l.take r).length = r := by simp [List.length_take, h2]
  rw [decode_on_eq_decodeFold (.Literal r) (l.take r),
    decodeFold_literal_le (l.take r) r h1 (by omega)]
  simp [htake_len]

/-! ### Encoder (`packbits/src/encode.rs`) -/

/-- `MIN_REPEATED` of `packbits/src/encode.rs`. -/
def MIN_REPEATED : Nat := 3

/-- `MAX_REPEATED` of `packbits/src/encode.rs`. -/
def MAX_REPEATED : Nat := 128

/-- `MAX_LITERAL` of `packbits/src/encode.rs`. -/
def MAX_LITERAL : Nat := 128

/-- `enum State` of `packbits/src/encode.rs`; the `Literal` buffer is the byte
list accumulated so far. -/
inductive EncState where
  | Idle
  | Literal (buf : List Nat)
  | Repeat (byte : Nat) (count : Nat)
deriving DecidableEq, Repr

/-- `ends_with_same_byte` of `packbits/src/encode.rs`: length of the maximal
run of copies of the last byte at the end of the slice (0 for the empty
slice). -/
def ends_with_same_byte (slice : List Nat) : Nat :=
  match slice.getLast? with
  | none => 0
  | some last_byte => (slice.reverse.takeWhile (fun b => b == last_byte)).length

/-- `output_literal` of `packbits/src/encode.rs`.  It asserts
`buf.remaining() <= MAX_LITERAL` (modelled as `none`, the assert firing) and
writes `(buf.len() - 1) as i8` followed by the buffer; the control byte is
modelled as the u8 `(len + 255) % 256`, which is `len - 1` for the lengths
`1..=128` the encoder actually uses. -/
def output_literal (buf : List Nat) : Option (List Nat) :=
  if buf.length ≤ MAX_LITERAL then some (((buf.length + 255) % 256) :: buf)
  else none

/-- `output_repeating` of `packbits/src/encode.rs`.  It asserts
`count <= MAX_REPEATED` and writes `-((count - 1) as i8)` then the value; the
control byte `(256 - ((count + 255) % 256)) % 256` equals `257 - count` for
the counts `2..=128` the encoder actually uses. -/
def output_repeating (value : Nat) (count : Nat) : Option (List Nat) :=
  if count ≤ MAX_REPEATED then
    some [(256 - ((count + 255) % 256)) % 256, value]
  else none

/-- The `repeated_count == MIN_REPEATED` block of `Encoder::encode_on`
(`packbits/src/encode.rs`): split the trailing repeat off the accumulated
buffer `buf'`, flush the literal prefix when nonempty, and move to the
`Repeat` state. -/
def Encoder.literal_repeat_transition (byte : Nat) (buf' : List Nat)
    (repeated_count : Nat) : Option (EncState × List Nat) :=
  let literal := buf'.take (buf'.length - repeated_count)
  if literal.isEmpty then some (.Repeat byte repeated_count, [])
  else
    match output_literal literal with
    | none => none
    | some out => some (.Repeat byte repeated_count, out)

/-- One iteration of the `while input.has_remaining()` loop of
`Encoder::encode_on` (`packbits/src/encode.rs`), processing one input byte.
`none` models a firing assert. -/
def Encoder.encode_step (s : EncState) (byte : Nat) : Option (EncState × List Nat) :=
  match s with
  | .Idle => some (.Literal [byte], [])
  | .Literal buf =>
      if buf.length = MAX_LITERAL then
        match output_literal buf with
        | none => none
        | some out => some (.Literal [byte], out)
      else
        let buf' := buf ++ [byte]
        let repeated_count := ends_with_same_byte buf'
        if repeated_count = MIN_REPEATED then
          Encoder.literal_repeat_transition byte buf' repeated_count
        else some (.Literal buf', [])
  | .Repeat value count =>
      if count = MAX_REPEATED then
        match output_repeating value count with
        | none => none
        | some out => some (.Literal [byte], out)
      else if value = byte then some (.Repeat value (count + 1), [])
      else
        match output_repeating value count with
        | none => none
        | some out => some (.Literal [byte], out)

/-- `Encoder::encode_on` of `packbits/src/encode.rs`: iterate
`Encoder.encode_step` over the input buffer, concatenating the emitted
bytes. -/
def Encoder.encode_on (s : EncState) : List Nat → Option (EncState × List Nat)
  | [] => some (s, [])
  | byte :: rest =>
      match Encoder.encode_step s byte with
      | none => none
      | some (s1, out) =>
          match Encoder.encode_on s1 rest with
          | none => none
          | some (s2, out2) => some (s2, out ++ out2)

/-- `Encoder::finalize_on` of `packbits/src/encode.rs`. -/
def Encoder.finalize_on : EncState → Option (List Nat)
  | .Idle => some []
  | .Literal buf => output_literal buf
  | .Repeat value count => output_repeating value count

/-- A sequence of `Encoder::encode` calls, one per chunk, on the same
encoder. -/
def Encoder.encode_chunks (s : EncState) : List (List Nat) → Option (EncState × List Nat)
  | [] => some (s, [])
  | c :: cs =>
      match Encoder.encode_on s c with
      | none => none
      | some (s1, out) =>
          match Encoder.encode_chunks s1 cs with
          | none => none
          | some (s2, out2) => some (s2, out ++ out2)

/-- `encoder.encode(chunk)` for every chunk followed by `encoder.finalize()`,
concatenating everything the encoder wrote. -/
def Encoder.run_chunks (chunks : List (List Nat)) : Option (List Nat) :=
  match Encoder.encode_chunks .Idle chunks with
  | none => none
  | some (s, out) =>
      match Encoder.finalize_on s with
      | none => none
      | some f => some (out ++ f)

/-- `encoder.encode(input)` on a fresh encoder followed by
`encoder.finalize()`. -/
def Encoder.encode_then_finalize (input : List Nat) : Option (List Nat) :=
  match Encoder.encode_on .Idle input with
  | none => none
  | some (s, out) =>
      match Encoder.finalize_on s with
      | none => none
      | some f => some (out ++ f)

/-! ### Properties of `ends_with_same_byte` -/

@[simp] lemma ends_with_same_byte_nil : ends_with_same_byte [] = 0 := rfl

@[simp] lemma ends_with_same_byte_singleton (b : Nat) :
    ends_with_same_byte [b] = 1 := by
  simp [ends_with_same_byte]

lemma ends_with_same_byte_concat (buf : List Nat) (b : Nat) :
    ends_with_same_byte (buf ++ [b]) =
      if buf.getLast? = some b then ends_with_same_byte buf + 1 else 1 := by
  cases h : buf.getLast? with
  | none =>
      have : buf = [] := List.getLast?_eq_none_iff.mp h
      subst this
      simp
  | some c =>
      have hne : buf ≠ [] := by
        intro hc; subst hc; simp at h
      have hrev : buf.reverse.head? = some c := by
        rw [List.head?_reverse]; exact h
      obtain ⟨t, ht⟩ : ∃ t, buf.reverse = c :: t := by
        cases hr : buf.reverse with
        | nil => rw [hr] at hrev; simp at hrev
        | cons x xs =>
            rw [hr] at hrev
            simp at hrev
            exact ⟨xs, by rw [hrev]⟩
      by_cases hcb : c = b
      · subst hcb
        simp only [ends_with_same_byte, List.getLast?_concat, h, if_pos rfl]
        rw [List.reverse_append]
        simp [List.takeWhile_cons, ht]
      · simp only [ends_with_same_byte, List.getLast?_concat, h,
          if_neg (by simpa using hcb)]
        rw [List.reverse_append]
        simp [List.takeWhile_cons, ht, hcb]

lemma length_takeWhile_le_local (p : Nat → Bool) (l : List Nat) :
    (l.takeWhile p).length ≤ l.length := by
  induction l with
  | nil => simp
  | cons a t ih =>
      rw [List.takeWhile_cons]
      by_cases h : p a
      · simp [h]; omega
      · simp [h]

/-- All bytes counted by `ends_with_same_byte` equal the last byte: the slice
decomposes as a prefix followed by that run. -/
lemma ends_with_same_byte_decomp (l : List Nat) (b : Nat) (h : l.getLast? = some b) :
    l = l.take (l.length - ends_with_same_byte l) ++
        List.replicate (ends_with_same_byte l) b ∧
      1 ≤ ends_with_same_byte l ∧ ends_with_same_byte l ≤ l.length := by
  have htw : ∀ (m : List Nat),
      m.takeWhile (fun x => x == b) =
        List.replicate (m.takeWhile (fun x => x == b)).length b := by
    intro m
    induction m with
    | nil => simp
    | cons c t ih =>
        by_cases hc : c = b
        · subst hc
          rw [List.takeWhile_cons, if_pos (by simp), List.length_cons,
            List.replicate_succ]
          exact congrArg (List.cons c) ih
        · rw [List.takeWhile_cons, if_neg (by simp [hc])]
          simp
  have hk : ends_with_same_byte l =
      (l.reverse.takeWhile (fun x => x == b)).length := by
    simp [ends_with_same_byte, h]
  obtain ⟨t, ht⟩ : ∃ t, l.reverse = b :: t := by
    have hrev : l.reverse.head? = some b := by rw [List.head?_reverse]; exact h
    cases hr : l.reverse with
    | nil => rw [hr] at hrev; simp at hrev
    | cons x xs =>
        rw [hr] at hrev; simp at hrev; exact ⟨xs, by rw [hrev]⟩
  have hsplit : l.reverse = l.reverse.takeWhile (fun x => x == b) ++
      l.reverse.dropWhile (fun x => x == b) :=
    (List.takeWhile_append_dropWhile (fun x => x == b) l.reverse).symm
  have htake : l.reverse.takeWhile (fun x => x == b) =
      List.replicate (ends_with_same_byte l) b := by
    conv_lhs => rw [htw]
    rw [← hk]
  have hl : l = (l.reverse.dropWhile (fun x => x == b)).reverse ++
      List.replicate (ends_with_same_byte l) b := by
    have h2 : l.reverse = List.replicate (ends_with_same_byte l) b ++
        l.reverse.dropWhile (fun x => x == b) := by
      rw [← htake]; exact hsplit
    calc l = l.reverse.reverse := (List.reverse_reverse l).symm
      _ = (List.replicate (ends_with_same_byte l) b ++
            l.reverse.dropWhile (fun x => x == b)).reverse := by rw [← h2]
      _ = (l.reverse.dropWhile (fun x => x == b)).reverse ++
            (List.replicate (ends_with_same_byte l) b).reverse := by
          rw [List.reverse_append]
      _ = (l.reverse.dropWhile (fun x => x == b)).reverse ++
            List.replicate (ends_with_same_byte l) b := by
          rw [List.reverse_replicate]
  have hkpos : 1 ≤ ends_with_same_byte l := by
    have hcons : l.reverse.takeWhile (fun x => x == b) =
        b :: (t.takeWhile (fun x => x == b)) := by
      rw [ht, List.takeWhile_cons, if_pos (by simp)]
    rw [hk, hcons]
    simp
  have hklen : ends_with_same_byte l ≤ l.length := by
    rw [hk]
    calc (l.reverse.takeWhile (fun x => x == b)).length
        ≤ l.reverse.length := length_takeWhile_le_local _ _
      _ = l.length := List.length_reverse l
  have hplen : (l.reverse.dropWhile (fun x => x == b)).reverse.length =
      l.length - ends_with_same_byte l := by
    have h1 : (l.reverse.takeWhile (fun x => x == b)).length +
        (l.reverse.dropWhile (fun x => x == b)).length = l.length := by
      have h2 := congrArg List.length hsplit
      simp only [List.length_append, List.length_reverse] at h2
      omega
    rw [htake] at h1
    simp only [List.length_replicate] at h1
    simp only [List.length_reverse]
    omega
  obtain ⟨K, hK⟩ : ∃ K, K = ends_with_same_byte l := ⟨_, rfl⟩
  rw [← hK] at hl hplen ⊢
  have hfin : List.take (l.length - K) l =
      (l.reverse.dropWhile (fun x => x == b)).reverse := by
    conv_lhs => rw [hl]
    have hlen2 : ((l.reverse.dropWhile (fun x => x == b)).reverse ++
        List.replicate K b).length - K =
        (l.reverse.dropWhile (fun x => x == b)).reverse.length := by
      simp only [List.length_append, List.length_replicate]
      omega
    rw [hlen2, List.take_left]
  refine ⟨?_, by omega, by omega⟩
  rw [hfin]
  exact hl

/-! ### Well-formed run streams and how the decoder consumes them -/

/-- The streams of bytes that are concatenations of well-formed PackBits
runs: a literal run is a control byte `len - 1` (with `len ∈ 1..=128`, so the
control byte is in `0..=127`) followed by `len` bytes, and a repeat run is a
control byte `257 - count` (with `count ∈ 3..=128`, i.e. the signed byte
`-(count - 1) ∈ -127..=-2`, never `-128` = byte 128) followed by the repeated
value. -/
inductive RunSeq : List Nat → Prop where
  | nil : RunSeq []
  | literal (buf rest : List Nat) : buf ≠ [] → buf.length ≤ 128 → RunSeq rest →
      RunSeq ((buf.length - 1) :: (buf ++ rest))
  | repeated (value count : Nat) (rest : List Nat) : 3 ≤ count → count ≤ 128 →
      RunSeq rest → RunSeq ((257 - count) :: value :: rest)

lemma output_literal_eq (buf : List Nat) (h1 : buf ≠ []) (h2 : buf.length ≤ 128) :
    output_literal buf = some ((buf.length - 1) :: buf) := by
  have hpos : 0 < buf.length := List.length_pos.mpr h1
  have hc : (buf.length + 255) % 256 = buf.length - 1 := by omega
  rw [output_literal, if_pos (by simpa [MAX_LITERAL] using h2), hc]

lemma output_repeating_eq (v c : Nat) (h1 : 2 ≤ c) (h2 : c ≤ 128) :
    output_repeating v c = some [257 - c, v] := by
  have hc : (256 - ((c + 255) % 256)) % 256 = 257 - c := by omega
  rw [output_repeating, if_pos (by simpa [MAX_REPEATED] using h2), hc]

lemma decode_literal_run (buf : List Nat) (h1 : buf ≠ []) (h2 : buf.length ≤ 128) :
    Decoder.decode_on .Idle ((buf.length - 1) :: buf) = (.Idle, buf) := by
  have hpos : 0 < buf.length := List.length_pos.mpr h1
  rw [decode_on_idle_literal _ _ (by omega), show 1 + (buf.length - 1) = buf.length
    from by omega, decode_on_literal_long buf.length buf (by omega) le_rfl]
  simp

lemma decode_repeat_run (v c : Nat) (h1 : 2 ≤ c) (h2 : c ≤ 128) :
    Decoder.decode_on .Idle [257 - c, v] = (.Idle, List.replicate c v) := by
  rw [decode_on_idle_repeat _ _ (by omega), show (256 - (257 - c)) + 1 = c
    from by omega, decode_on_repeat]
  simp

/-! ### Encoder invariant and the per-byte specification -/

/-- The bytes an encoder state still holds (not yet written to the output). -/
def pending : EncState → List Nat
  | .Idle => []
  | .Literal buf => buf
  | .Repeat value count => List.replicate count value

/-- Invariant maintained by `Encoder.encode_step` from `Encoder::new()`:
a `Literal` buffer is nonempty, at most `MAX_LITERAL` long and ends in a run
of at most 2 equal bytes; a `Repeat` count is in `MIN_REPEATED..=MAX_REPEATED`. -/
def EncInv : EncState → Prop
  | .Idle => True
  | .Literal buf => buf ≠ [] ∧ buf.length ≤ MAX_LITERAL ∧ ends_with_same_byte buf ≤ 2
  | .Repeat _ count => MIN_REPEATED ≤ count ∧ count ≤ MAX_REPEATED

lemma encode_step_idle (byte : Nat) :
    Encoder.encode_step .Idle byte = some (.Literal [byte], []) := rfl

lemma encode_step_literal_max (buf : List Nat) (byte : Nat)
    (hmax : buf.length = MAX_LITERAL) (hne : buf ≠ []) (hle : buf.length ≤ 128) :
    Encoder.encode_step (.Literal buf) byte =
      some (.Literal [byte], (buf.length - 1) :: buf) := by
  simp only [Encoder.encode_step, if_pos hmax, output_literal_eq buf hne hle]

lemma encode_step_literal_grow (buf : List Nat) (byte : Nat)
    (hmax : ¬ buf.length = MAX_LITERAL)
    (hrc : ¬ ends_with_same_byte (buf ++ [byte]) = MIN_REPEATED) :
    Encoder.encode_step (.Literal buf) byte = some (.Literal (buf ++ [byte]), []) := by
  simp only [Encoder.encode_step, if_neg hmax, if_neg hrc]

lemma encode_step_literal_rc (buf : List Nat) (byte : Nat)
    (hmax : ¬ buf.length = MAX_LITERAL)
    (hrc : ends_with_same_byte (buf ++ [byte]) = MIN_REPEATED) :
    Encoder.encode_step (.Literal buf) byte =
      Encoder.literal_repeat_transition byte (buf ++ [byte]) MIN_REPEATED := by
  simp only [Encoder.encode_step, if_neg hmax, hrc, if_pos rfl]
  simp

lemma literal_repeat_transition_empty (byte : Nat) (buf' : List Nat) (rc : Nat)
    (h : buf'.take (buf'.length - rc) = []) :
    Encoder.literal_repeat_transition byte buf' rc = some (.Repeat byte rc, []) := by
  simp only [Encoder.literal_repeat_transition, h]
  simp

lemma literal_repeat_transition_flush (byte : Nat) (buf' : List Nat) (rc : Nat)
    (hne : buf'.take (buf'.length - rc) ≠ [])
    (hle : (buf'.take (buf'.length - rc)).length ≤ 128) :
    Encoder.literal_repeat_transition byte buf' rc =
      some (.Repeat byte rc,
        ((buf'.take (buf'.length - rc)).length - 1) :: buf'.take (buf'.length - rc)) := by
  have hcond : ¬ ((buf'.take (buf'.length - rc)).isEmpty = true) :=
    fun hc => hne (List.isEmpty_iff.mp hc)
  simp only [Encoder.literal_repeat_transition, if_neg hcond,
    output_literal_eq _ hne hle]

lemma encode_step_repeat_max (value count byte : Nat)
    (hmax : count = MAX_REPEATED) (h1 : 2 ≤ count) (h2 : count ≤ 128) :
    Encoder.encode_step (.Repeat value count) byte =
      some (.Literal [byte], [257 - count, value]) := by
  simp only [Encoder.encode_step, if_pos hmax, output_repeating_eq value count h1 h2]

lemma encode_step_repeat_same (value count byte : Nat)
    (hmax : ¬ count = MAX_REPEATED) (hsame : value = byte) :
    Encoder.encode_step (.Repeat value count) byte =
      some (.Repeat value (count + 1), []) := by
  simp only [Encoder.encode_step, if_neg hmax, if_pos hsame]

lemma encode_step_repeat_flush (value count byte : Nat)
    (hmax : ¬ count = MAX_REPEATED) (hsame : ¬ value = byte)
    (h1 : 2 ≤ count) (h2 : count ≤ 128) :
    Encoder.encode_step (.Repeat value count) byte =
      some (.Literal [byte], [257 - count, value]) := by
  simp only [Encoder.encode_step, if_neg hmax, if_neg hsame,
    output_repeating_eq value count h1 h2]

lemma encode_step_spec (s : EncState) (byte : Nat) (h : EncInv s) :
    ∃ s1 out d, Encoder.encode_step s byte = some (s1, out) ∧ EncInv s1 ∧
      Decoder.decode_on .Idle out = (.Idle, d) ∧
      d ++ pending s1 = pending s ++ [byte] ∧
      (∀ r, RunSeq r → RunSeq (out ++ r)) := by
  have hinv_single : EncInv (.Literal [byte]) :=
    ⟨by simp, by simp [MAX_LITERAL], by simp⟩
  cases s with
  | Idle =>
      exact ⟨.Literal [byte], [], [], rfl, hinv_single, by simp, by simp [pending],
        fun r hr => by simpa using hr⟩
  | Literal buf =>
      obtain ⟨hne, hlen, hends⟩ := h
      have hlen128 : buf.length ≤ 128 := by simpa [MAX_LITERAL] using hlen
      by_cases hmax : buf.length = MAX_LITERAL
      · refine ⟨.Literal [byte], (buf.length - 1) :: buf, buf,
          encode_step_literal_max buf byte hmax hne hlen128, hinv_single,
          decode_literal_run buf hne hlen128, by simp [pending], ?_⟩
        intro r hr
        simpa using RunSeq.literal buf r hne hlen128 hr
      · have hlast : (buf ++ [byte]).getLast? = some byte := List.getLast?_concat _
        obtain ⟨hdecomp, hk1, hk2⟩ :=
          ends_with_same_byte_decomp (buf ++ [byte]) byte hlast
        by_cases hrc : ends_with_same_byte (buf ++ [byte]) = MIN_REPEATED
        · rw [hrc] at hdecomp hk2
          have hstep := encode_step_literal_rc buf byte hmax hrc
          have hinv_rep : EncInv (.Repeat byte MIN_REPEATED) :=
            ⟨le_rfl, by simp [MIN_REPEATED, MAX_REPEATED]⟩
          by_cases hemp : (buf ++ [byte]).take ((buf ++ [byte]).length - MIN_REPEATED) = []
          · refine ⟨.Repeat byte MIN_REPEATED, [], [], ?_, hinv_rep, by simp, ?_, ?_⟩
            · rw [hstep, literal_repeat_transition_empty byte _ _ hemp]
            · show [] ++ List.replicate MIN_REPEATED byte = buf ++ [byte]
              rw [hemp] at hdecomp
              simpa using hdecomp.symm
            · intro r hr; simpa using hr
          · have hlit_le :
                ((buf ++ [byte]).take ((buf ++ [byte]).length - MIN_REPEATED)).length ≤ 128 := by
              rw [List.length_take]
              simp only [List.length_append, List.length_cons, List.length_nil,
                MIN_REPEATED]
              omega
            refine ⟨.Repeat byte MIN_REPEATED,
              (((buf ++ [byte]).take ((buf ++ [byte]).length - MIN_REPEATED)).length - 1) ::
                (buf ++ [byte]).take ((buf ++ [byte]).length - MIN_REPEATED),
              (buf ++ [byte]).take ((buf ++ [byte]).length - MIN_REPEATED),
              ?_, hinv_rep, decode_literal_run _ hemp hlit_le, ?_, ?_⟩
            · rw [hstep, literal_repeat_transition_flush byte _ _ hemp hlit_le]
            · show _ ++ List.replicate MIN_REPEATED byte = buf ++ [byte]
              exact hdecomp.symm
            · intro r hr
              simpa using RunSeq.literal _ r hemp hlit_le hr
        · refine ⟨.Literal (buf ++ [byte]), [], [],
            encode_step_literal_grow buf byte hmax hrc, ?_, by simp,
            by simp [pending], fun r hr => by simpa using hr⟩
          refine ⟨by simp, ?_, ?_⟩
          · simp only [List.length_append, List.length_cons, List.length_nil]
            simp only [MAX_LITERAL] at hmax ⊢
            omega
          · have hconcat := ends_with_same_byte_concat buf byte
            rw [hconcat] at hrc
            simp only [MIN_REPEATED] at hrc
            rw [hconcat]
            by_cases hcond : buf.getLast? = some byte
            · rw [if_pos hcond]
              rw [if_pos hcond] at hrc
              omega
            · rw [if_neg hcond]
              omega
  | Repeat value count =>
      obtain ⟨hc1, hc2⟩ := h
      simp only [MIN_REPEATED, MAX_REPEATED] at hc1 hc2
      by_cases hmax : count = MAX_REPEATED
      · refine ⟨.Literal [byte], [257 - count, value], List.replicate count value,
          encode_step_repeat_max value count byte hmax (by omega) (by omega),
          hinv_single, decode_repeat_run value count (by omega) (by omega),
          by simp [pending], ?_⟩
        intro r hr
        simpa using RunSeq.repeated value count r (by omega) (by omega) hr
      · by_cases hsame : value = byte
        · refine ⟨.Repeat value (count + 1), [], [],
            encode_step_repeat_same value count byte hmax hsame, ?_, by simp, ?_, ?_⟩
          · refine ⟨by simp [MIN_REPEATED]; omega, ?_⟩
            simp only [MAX_REPEATED] at hmax ⊢
            omega
          · simp [pending, hsame, List.replicate_succ']
          · intro r hr; simpa using hr
        · refine ⟨.Literal [byte], [257 - count, value], List.replicate count value,
            encode_step_repeat_flush value count byte hmax hsame (by omega) (by omega),
            hinv_single, decode_repeat_run value count (by omega) (by omega),
            by simp [pending], ?_⟩
          intro r hr
          simpa using RunSeq.repeated value count r (by omega) (by omega) hr

/-! ### The master induction over the input -/

lemma encode_on_spec (l : List Nat) : ∀ s : EncState, EncInv s →
    ∃ s1 out d, Encoder.encode_on s l = some (s1, out) ∧ EncInv s1 ∧
      Decoder.decode_on .Idle out = (.Idle, d) ∧
      d ++ pending s1 = pending s ++ l ∧
      (∀ r, RunSeq r → RunSeq (out ++ r)) := by
  induction l with
  | nil =>
      intro s hs
      exact ⟨s, [], [], rfl, hs, by simp, by simp, fun r hr => by simpa using hr⟩
  | cons byte rest ih =>
      intro s hs
      obtain ⟨s1, out1, d1, hstep, hinv1, hdec1, hpend1, hrun1⟩ :=
        encode_step_spec s byte hs
      obtain ⟨s2, out2, d2, henc, hinv2, hdec2, hpend2, hrun2⟩ := ih s1 hinv1
      refine ⟨s2, out1 ++ out2, d1 ++ d2, ?_, hinv2, ?_, ?_, ?_⟩
      · simp only [Encoder.encode_on, hstep, henc]
      · rw [decode_on_append, hdec1]
        simp [hdec2]
      · rw [List.append_assoc, hpend2, ← List.append_assoc, hpend1,
          List.append_assoc]
        simp
      · intro r hr
        rw [List.append_assoc]
        exact hrun1 _ (hrun2 r hr)

lemma finalize_on_spec (s : EncState) (h : EncInv s) :
    ∃ f, Encoder.finalize_on s = some f ∧
      Decoder.decode_on .Idle f = (.Idle, pending s) ∧
      (∀ r, RunSeq r → RunSeq (f ++ r)) := by
  cases s with
  | Idle => exact ⟨[], rfl, by simp [pending], fun r hr => by simpa using hr⟩
  | Literal buf =>
      obtain ⟨hne, hlen, -⟩ := h
      have hlen128 : buf.length ≤ 128 := by simpa [MAX_LITERAL] using hlen
      refine ⟨(buf.length - 1) :: buf, ?_, decode_literal_run buf hne hlen128, ?_⟩
      · simp only [Encoder.finalize_on, output_literal_eq buf hne hlen128]
      · intro r hr
        simpa using RunSeq.literal buf r hne hlen128 hr
  | Repeat value count =>
      obtain ⟨hc1, hc2⟩ := h
      simp only [MIN_REPEATED, MAX_REPEATED] at hc1 hc2
      refine ⟨[257 - count, value], ?_,
        decode_repeat_run value count (by omega) (by omega), ?_⟩
      · simp only [Encoder.finalize_on,
          output_repeating_eq value count (by omega) (by omega)]
      · intro r hr
        simpa using RunSeq.repeated value count r (by omega) (by omega) hr

lemma encode_chunks_spec (chunks : List (List Nat)) : ∀ s : EncState, EncInv s →
    ∃ s1 out d, Encoder.encode_chunks s chunks = some (s1, out) ∧ EncInv s1 ∧
      Decoder.decode_on .Idle out = (.Idle, d) ∧
      d ++ pending s1 = pending s ++ chunks.flatten ∧
      (∀ r, RunSeq r → RunSeq (out ++ r)) := by
  induction chunks with
  | nil =>
      intro s hs
      exact ⟨s, [], [], rfl, hs, by simp, by simp, fun r hr => by simpa using hr⟩
  | cons c cs ih =>
      intro s hs
      obtain ⟨s1, out1, d1, henc1, hinv1, hdec1, hpend1, hrun1⟩ :=
        encode_on_spec c s hs
      obtain ⟨s2, out2, d2, henc2, hinv2, hdec2, hpend2, hrun2⟩ := ih s1 hinv1
      refine ⟨s2, out1 ++ out2, d1 ++ d2, ?_, hinv2, ?_, ?_, ?_⟩
      · simp only [Encoder.encode_chunks, henc1, henc2]
      · rw [decode_on_append, hdec1]
        simp [hdec2]
      · rw [List.append_assoc, hpend2, ← List.append_assoc, hpend1,
          List.append_assoc]
        simp
      · intro r hr
        rw [List.append_assoc]
        exact hrun1 _ (hrun2 r hr)

end PackBits

/-! ## Claim theorems for the PackBits codec -/

namespace PackBits

/-- Claim C1: for every byte sequence `D` (given as `chunks.flatten`) and any
chunking of `D` across `encode` calls, encoding (all `encode` calls followed
by `finalize`) and then decoding the encoder's output reproduces exactly `D`,
leaves the decoder in `Idle`, and the decoder's `finalize` returns `Ok`. -/
theorem c1_roundtrip (chunks : List (List Nat)) :
    ∃ encoded, Encoder.run_chunks chunks = some encoded ∧
      Decoder.decode_on .Idle encoded = (.Idle, chunks.flatten) ∧
      Decoder.finalize (Decoder.decode_on .Idle encoded).1 = .ok () := by
  obtain ⟨s1, out, d, henc, hinv, hdec, hpend, -⟩ :=
    encode_chunks_spec chunks .Idle trivial
  obtain ⟨f, hfin, hdecf, -⟩ := finalize_on_spec s1 hinv
  have hdecfull : Decoder.decode_on .Idle (out ++ f) = (.Idle, chunks.flatten) := by
    rw [decode_on_append, hdec]
    simp only [hdecf]
    rw [show d ++ pending s1 = chunks.flatten from by simpa [pending] using hpend]
  refine ⟨out ++ f, ?_, hdecfull, ?_⟩
  · simp only [Encoder.run_chunks, henc, hfin]
  · rw [hdecfull]
    rfl

/-- Claim C2: the decoder starting in `Idle` interprets each control byte
`n` (signed 8-bit, here its unsigned value `b`) as the format prescribes:
`0..=127` emits the next `n + 1` bytes verbatim, bytes `129..=255`
(signed `-127..=-1`) emit the next single byte `257 - b = (-n) + 1` times
(between 2 and 128 repetitions), and byte 128 (signed `-128`) emits nothing
and stays in `Idle`; moreover decoding is unchanged by chunk boundaries
(first conjunct), so no control byte is re-interpreted across a call
boundary. -/
theorem c2_decoder_semantics :
    (∀ (s : DecState) (xs ys : List Nat),
      Decoder.decode_on s (xs ++ ys) =
        ((Decoder.decode_on (Decoder.decode_on s xs).1 ys).1,
          (Decoder.decode_on s xs).2 ++
            (Decoder.decode_on (Decoder.decode_on s xs).1 ys).2)) ∧
    (∀ (n : Nat) (payload rest : List Nat), n < 128 → payload.length = n + 1 →
      Decoder.decode_on .Idle (n :: (payload ++ rest)) =
        ((Decoder.decode_on .Idle rest).1,
          payload ++ (Decoder.decode_on .Idle rest).2)) ∧
    (∀ (b v : Nat) (rest : List Nat), 128 < b → b ≤ 255 →
      Decoder.decode_on .Idle (b :: v :: rest) =
        ((Decoder.decode_on .Idle rest).1,
          List.replicate (257 - b) v ++ (Decoder.decode_on .Idle rest).2) ∧
        2 ≤ 257 - b ∧ 257 - b ≤ 128) ∧
    (∀ rest : List Nat,
      Decoder.decode_on .Idle (128 :: rest) = Decoder.decode_on .Idle rest) := by
  refine ⟨decode_on_append, ?_, ?_, decode_on_idle_nop⟩
  · intro n payload rest hn hlen
    rw [decode_on_idle_literal n _ hn, show 1 + n = payload.length from by omega,
      decode_on_literal_long payload.length (payload ++ rest)
        (by omega) (by simp), List.take_left, List.drop_left]
  · intro b v rest hb1 hb2
    refine ⟨?_, by omega, by omega⟩
    rw [decode_on_idle_repeat b _ hb1, show (256 - b) + 1 = 257 - b from by omega,
      decode_on_repeat]

/-- Witness for C2 at concrete inputs: a 3-byte literal, a 3-fold repeat and
the `-128` no-op. -/
theorem c2_witness :
    Decoder.decode_on .Idle [2, 9, 8, 7] = (.Idle, [9, 8, 7]) ∧
    Decoder.decode_on .Idle [254, 5] = (.Idle, [5, 5, 5]) ∧
    Decoder.decode_on .Idle [128] = (.Idle, []) := by
  have h := c2_decoder_semantics
  refine ⟨?_, ?_, ?_⟩
  · have h2 := h.2.1 2 [9, 8, 7] [] (by decide) (by decide)
    simpa using h2
  · have h3 := (h.2.2.1 254 5 [] (by decide) (by decide)).1
    simpa using h3
  · have h4 := h.2.2.2 []
    simpa using h4

/-- Claim C3: the decoder's `finalize` returns `Ok` exactly in the `Idle`
state; an input ending mid-literal (control byte `n ≤ 127` followed by fewer
than `n + 1` bytes) finalizes to `DanglingLiteral` carrying the remaining
count, and an input ending immediately after a negative control byte other
than `-128` (bytes `129..=255`) finalizes to `DanglingRepeated`. -/
theorem c3_finalize :
    (∀ s : DecState, Decoder.finalize s = .ok () ↔ s = .Idle) ∧
    (∀ (xs ys : List Nat) (n : Nat), (Decoder.decode_on .Idle xs).1 = .Idle →
      n < 128 → ys.length < n + 1 →
      Decoder.finalize (Decoder.decode_on .Idle (xs ++ n :: ys)).1 =
        .error (.DanglingLiteral (n + 1 - ys.length))) ∧
    (∀ (xs : List Nat) (b : Nat), (Decoder.decode_on .Idle xs).1 = .Idle →
      128 < b → b ≤ 255 →
      Decoder.finalize (Decoder.decode_on .Idle (xs ++ [b])).1 =
        .error .DanglingRepeated) := by
  refine ⟨?_, ?_, ?_⟩
  · intro s
    cases s <;> simp [Decoder.finalize]
  · intro xs ys n hxs hn hys
    rw [decode_on_append, hxs, decode_on_idle_literal n ys hn,
      show 1 + n = n + 1 from by omega,
      decode_on_literal_short (n + 1) ys (by omega)]
    simp [Decoder.finalize]
  · intro xs b hxs hb1 hb2
    rw [decode_on_append, hxs, decode_on_idle_repeat b [] hb1]
    simp [Decoder.finalize]

/-- Witness for C3 at concrete inputs: `finalize` in `Idle` is `Ok`; input
`[5, 1, 2]` ends mid-literal with 4 bytes missing; input `[200]` ends right
after a negative control byte. -/
theorem c3_witness :
    Decoder.finalize .Idle = .ok () ∧
    Decoder.finalize (Decoder.decode_on .Idle ([] ++ 5 :: [1, 2])).1 =
      .error (.DanglingLiteral (5 + 1 - [1, 2].length)) ∧
    Decoder.finalize (Decoder.decode_on .Idle ([] ++ [200])).1 =
      .error .DanglingRepeated := by
  refine ⟨(c3_finalize.1 .Idle).mpr rfl, ?_, ?_⟩
  · exact c3_finalize.2.1 [] [1, 2] 5 (by simp) (by decide) (by decide)
  · exact c3_finalize.2.2 [] 200 (by simp) (by decide) (by decide)

/-- Claim C4: the encoder (encode of the whole input, then finalize)
reproduces the three normative reference vectors: the Apple example, 144
copies of `0x61`, and the bytes of `"abcdeeeeeeeeeeeeeeeefg"`. -/
theorem c4_reference_vectors :
    Encoder.encode_then_finalize
        [0xAA, 0xAA, 0xAA, 0x80, 0x00, 0x2A, 0xAA, 0xAA, 0xAA, 0xAA, 0x80, 0x00,
          0x2A, 0x22, 0xAA, 0xAA, 0xAA, 0xAA, 0xAA, 0xAA, 0xAA, 0xAA, 0xAA, 0xAA] =
      some [0xFE, 0xAA, 0x02, 0x80, 0x00, 0x2A, 0xFD, 0xAA, 0x03, 0x80, 0x00,
        0x2A, 0x22, 0xF7, 0xAA] ∧
    Encoder.encode_then_finalize (List.replicate 144 0x61) =
      some [0x81, 0x61, 0xF1, 0x61] ∧
    Encoder.encode_then_finalize
        [0x61, 0x62, 0x63, 0x64, 0x65, 0x65, 0x65, 0x65, 0x65, 0x65, 0x65, 0x65,
          0x65, 0x65, 0x65, 0x65, 0x65, 0x65, 0x65, 0x65, 0x66, 0x67] =
      some [0x03, 0x61, 0x62, 0x63, 0x64, 0xF1, 0x65, 0x01, 0x66, 0x67] := by
  exact ⟨by decide, by decide, by decide⟩

/-- Claim C10: for every input and any chunking across `encode` calls, the
encoder succeeds (no assert fires: `encode_chunks` and `finalize_on` return
`some`) and the concatenation of everything it emits is a sequence of
well-formed runs: literal runs of `1..=128` bytes with control byte
`len - 1 ∈ 0..=127`, and repeat runs with counts `3..=128` and control byte
`257 - count` (signed `-(count-1) ∈ -127..=-2`); in particular the `-128`
control byte (byte value 128) is never emitted. -/
theorem c10_wellformed_runs (chunks : List (List Nat)) :
    ∃ s out f, Encoder.encode_chunks .Idle chunks = some (s, out) ∧
      Encoder.finalize_on s = some f ∧ RunSeq (out ++ f) := by
  obtain ⟨s1, out, d, henc, hinv, -, -, hrun⟩ :=
    encode_chunks_spec chunks .Idle trivial
  obtain ⟨f, hfin, -, hrunf⟩ := finalize_on_spec s1 hinv
  exact ⟨s1, out, f, henc, hfin, hrun _ (by simpa using hrunf [] RunSeq.nil)⟩

end PackBits

/-! ## Mohawk archive parsing (`src/mohawk.rs`) -/

namespace Mohawk

/-- The error type of `src/lib.rs` (`errors::Error` with
`errors::InvalidHeaderError` flattened in, as the `From` conversion does).
`io` stands for any underlying I/O error (here: reading past the end of the
input), `utf8` for a UTF-8 decoding failure. -/
inductive MError where
  | io
  | utf8
  | IFFSignature
  | RSRCSignature
  | UnsupportedVersion (v : Nat)
  | UnsupportedCompaction (c : Nat)
  | UncoherentFileSize
  | UnknownFileID
  | TooBigFileTable
  | UncoherentFileTableSize
deriving DecidableEq, Repr

/-- A reader positioned in the archive is the list of bytes still ahead of
the cursor.  `tokio`'s `read_u8` fails with an I/O error at end of file. -/
def read_u8 : List Nat → Except MError (Nat × List Nat)
  | [] => .error .io
  | b :: r => .ok (b, r)

/-- Big-endian `read_u16`. -/
def read_u16 : List Nat → Except MError (Nat × List Nat)
  | b0 :: b1 :: r => .ok (b0 * 256 + b1, r)
  | _ => .error .io

/-- Big-endian `read_u32`. -/
def read_u32 : List Nat → Except MError (Nat × List Nat)
  | b0 :: b1 :: b2 :: b3 :: r =>
      .ok (((b0 * 256 + b1) * 256 + b2) * 256 + b3, r)
  | _ => .error .io

/-- `MohawkReader::read_4_bytes`. -/
def read_4_bytes : List Nat → Except MError (List Nat × List Nat)
  | b0 :: b1 :: b2 :: b3 :: r => .ok ([b0, b1, b2, b3], r)
  | _ => .error .io

/-- The ASCII bytes of `"MHWK"`. -/
def MHWK : List Nat := [77, 72, 87, 75]

/-- The ASCII bytes of `"RSRC"`. -/
def RSRC : List Nat := [82, 83, 82, 67]

/-- `parse_iff_header` of `src/mohawk.rs`: check the `MHWK` signature, then
read the u32 size field and return `size + 8` (u32 wrapping addition, hence
the `% 2^32`). -/
def parse_iff_header (l : List Nat) : Except MError (Nat × List Nat) := do
  let (magic, l) ← read_4_bytes l
  if magic ≠ MHWK then
    .error .IFFSignature
  else do
    let (size, l) ← read_u32 l
    .ok ((size + 8) % 4294967296, l)

/-- `struct RSRCHeader` of `src/mohawk.rs`. -/
structure RSRCHeader where
  resource_dir_offset : Nat
  file_table_offset_in_resource_dir : Nat
  file_table_size : Nat
deriving DecidableEq, Repr

/-- `parse_rsrc_header` of `src/mohawk.rs`. -/
def parse_rsrc_header (l : List Nat) (total_file_size : Nat) :
    Except MError (RSRCHeader × List Nat) := do
  let (magic, l) ← read_4_bytes l
  if magic ≠ RSRC then
    .error .RSRCSignature
  else do
    let (version, l) ← read_u16 l
    if version ≠ 0x100 then
      .error (.UnsupportedVersion version)
    else do
      let (compaction, l) ← read_u16 l
      if compaction ≠ 0x1 then
        .error (.UnsupportedCompaction compaction)
      else do
        let (file_size, l) ← read_u32 l
        if file_size ≠ total_file_size then
          .error .UncoherentFileSize
        else do
          let (resource_dir_offset, l) ← read_u32 l
          let (file_table_offset_in_resource_dir, l) ← read_u16 l
          let (file_table_size, l) ← read_u16 l
          .ok (⟨resource_dir_offset, file_table_offset_in_resource_dir,
            file_table_size⟩, l)

/-- `parse_iff_header` then `parse_rsrc_header`, as `Mohawk::with_reader`
sequences them on the same reader. -/
def parse_headers (l : List Nat) : Except MError (RSRCHeader × List Nat) := do
  let (total_file_size, l) ← parse_iff_header l
  parse_rsrc_header l total_file_size

/-- `struct File` of `src/mohawk.rs`. -/
structure MFile where
  offset : Nat
  size : Nat
  flag : Nat
  unknown : Nat
deriving DecidableEq, Repr

/-- The entry-reading loop of `parse_file_table`: `count` entries of
10 bytes each, keyed by their position `file_id` (counting up from
`first_id`).  `size_and_flag >> 8` is the 24-bit size and its low byte the
flag. -/
def parse_file_entries (first_id : Nat) :
    Nat → List Nat → Except MError (List (Nat × MFile) × List Nat)
  | 0, l => .ok ([], l)
  | n + 1, l => do
      let (offset, l) ← read_u32 l
      let (size_and_flag, l) ← read_u32 l
      let size := size_and_flag / 256
      let flag := size_and_flag % 256
      let (unknown, l) ← read_u16 l
      let (rest, l) ← parse_file_entries (first_id + 1) n l
      .ok ((first_id, ⟨offset, size, flag, unknown⟩) :: rest, l)

/-- `parse_file_table` of `src/mohawk.rs`: the u32 `file_entry_count` must
fit in a u16 (`TooBigFileTable` otherwise) and the header-declared
`expected_size` must match `4 + file_entry_count * BYTES_PER_ENTRY`, a u16
computation that wraps (release-mode Rust), hence the `% 2^16`. -/
def parse_file_table (l : List Nat) (expected_size : Nat) :
    Except MError (List (Nat × MFile) × List Nat) := do
  let (file_entry_count, l) ← read_u32 l
  if file_entry_count ≥ 65536 then
    .error .TooBigFileTable
  else if (4 + file_entry_count * 10) % 65536 ≠ expected_size then
    .error .UncoherentFileTableSize
  else
    parse_file_entries 0 file_entry_count l

/-- The entry loop of `parse_resource_table` of `src/mohawk.rs`: pairs
`(resource_id, file_id)` where `file_id` is the stored u16 minus one
(u16 wrapping subtraction, release-mode Rust, hence `(v + 65535) % 65536`). -/
def parse_resource_entries :
    Nat → List Nat → Except MError (List (Nat × Nat) × List Nat)
  | 0, l => .ok ([], l)
  | n + 1, l => do
      let (resource_id, l) ← read_u16 l
      let (file_id_plus_one, l) ← read_u16 l
      let (rest, l) ← parse_resource_entries n l
      .ok ((resource_id, (file_id_plus_one + 65535) % 65536) :: rest, l)

/-- `parse_resource_table` of `src/mohawk.rs`. -/
def parse_resource_table (l : List Nat) :
    Except MError (List (Nat × Nat) × List Nat) := do
  let (resource_entry_count, l) ← read_u16 l
  parse_resource_entries resource_entry_count l

/-- `struct Resource` of `src/mohawk.rs` (names kept as raw byte lists). -/
structure MResource where
  name : Option (List Nat)
  file : MFile
deriving DecidableEq, Repr

/-- `HashMap::remove` on an association list with unique keys: remove the
first entry with the given key and return its value and the rest. -/
def remove_assoc (k : Nat) : List (Nat × α) → Option (α × List (Nat × α))
  | [] => none
  | (k0, v0) :: rest =>
      if k0 = k then some (v0, rest)
      else
        match remove_assoc k rest with
        | none => none
        | some (v, rest1) => some (v, (k0, v0) :: rest1)

/-- The per-type join loop of `Mohawk::with_reader` (`src/mohawk.rs` lines
237-249): each resource-table entry `(resource_id, file_id)` is joined with
`name: resource_id_to_name.remove(&file_id)` — the source removes the name
keyed by the FILE id, not the resource id — and
`file: files.remove(&file_id).ok_or(UnknownFileID)?`. -/
def join_resource_table (names : List (Nat × List Nat))
    (files : List (Nat × MFile)) :
    List (Nat × Nat) →
      Except MError (List (Nat × MResource) × List (Nat × List Nat) ×
        List (Nat × MFile))
  | [] => .ok ([], names, files)
  | (resource_id, file_id) :: rest =>
      let name_removed := remove_assoc file_id names
      let name := name_removed.map (fun p => p.1)
      let names1 := match name_removed with
        | none => names
        | some (_, ns) => ns
      match remove_assoc file_id files with
      | none => .error .UnknownFileID
      | some (file, files1) => do
          let (resources, names2, files2) ← join_resource_table names1 files1 rest
          .ok ((resource_id, ⟨name, file⟩) :: resources, names2, files2)

/-- The outer loop of the join in `Mohawk::with_reader`: one
`(type tag, resource table, resource_id → name)` triple per type, with the
file map threaded through (removal-on-consumption persists across types);
leftover names per type only produce a warning and are dropped. -/
def mohawk_join (files : List (Nat × MFile)) :
    List (List Nat × List (Nat × Nat) × List (Nat × List Nat)) →
      Except MError (List (List Nat × List (Nat × MResource)) ×
        List (Nat × MFile))
  | [] => .ok ([], files)
  | (resource_type, resource_table, resource_id_to_name) :: rest => do
      let (resources, _names_left, files1) ←
        join_resource_table resource_id_to_name files resource_table
      let (others, files2) := ← mohawk_join files1 rest
      .ok ((resource_type, resources) :: others, files2)

end Mohawk

namespace Mohawk

/-- Big-endian u16 byte encoding. -/
def u16be (v : Nat) : List Nat := [v / 256, v % 256]

/-- Big-endian u32 byte encoding. -/
def u32be (v : Nat) : List Nat :=
  [v / 16777216, v / 65536 % 256, v / 256 % 256, v % 256]

lemma bind_ok {α β : Type} (a : α) (f : α → Except MError β) :
    (Except.ok a >>= f) = f a := rfl

instance instDecEqExcept {ε α : Type} [DecidableEq ε] [DecidableEq α] :
    DecidableEq (Except ε α)
  | .ok a, .ok b =>
      if h : a = b then .isTrue (by rw [h])
      else .isFalse (fun hc => h (Except.ok.inj hc))
  | .error e, .error f =>
      if h : e = f then .isTrue (by rw [h])
      else .isFalse (fun hc => h (Except.error.inj hc))
  | .ok _, .error _ => .isFalse (fun hc => Except.noConfusion hc)
  | .error _, .ok _ => .isFalse (fun hc => Except.noConfusion hc)

lemma read_u16_be (v : Nat) (r : List Nat) (h : v < 65536) :
    read_u16 (u16be v ++ r) = .ok (v, r) := by
  simp only [u16be, List.cons_append, List.nil_append, read_u16]
  congr 2
  omega

lemma read_u32_be (v : Nat) (r : List Nat) (h : v < 4294967296) :
    read_u32 (u32be v ++ r) = .ok (v, r) := by
  simp only [u32be, List.cons_append, List.nil_append, read_u32]
  congr 2
  omega

lemma read_4_bytes_of_length (m r : List Nat) (h : m.length = 4) :
    read_4_bytes (m ++ r) = .ok (m, r) := by
  rcases m with _ | ⟨a, _ | ⟨b, _ | ⟨c, _ | ⟨d, _ | ⟨e, tail⟩⟩⟩⟩⟩
  · simp at h
  · simp at h
  · simp at h
  · simp at h
  · rfl
  · simp at h

end Mohawk

/-! ## Claim theorems for the Mohawk archive parser -/

namespace Mohawk

/-- Claim C5, amended: the Mohawk header and table parsers fail with exactly
the specified error for each malformed field, with the two arithmetic checks
as the machine computes them: the `UncoherentFileSize` comparison is against
`(IFF size + 8) mod 2^32` (u32 wrapping) and the `UncoherentFileTableSize`
comparison against `(4 + file_count * 10) mod 2^16` (u16 wrapping). -/
theorem c5_theorem :
    (∀ (magic rest : List Nat), magic.length = 4 → magic ≠ MHWK →
      parse_iff_header (magic ++ rest) = .error .IFFSignature) ∧
    (∀ (s : Nat) (rest : List Nat), s < 4294967296 →
      parse_iff_header (MHWK ++ (u32be s ++ rest)) =
        .ok ((s + 8) % 4294967296, rest)) ∧
    (∀ (magic rest : List Nat) (t : Nat), magic.length = 4 → magic ≠ RSRC →
      parse_rsrc_header (magic ++ rest) t = .error .RSRCSignature) ∧
    (∀ (v : Nat) (rest : List Nat) (t : Nat), v < 65536 → v ≠ 0x100 →
      parse_rsrc_header (RSRC ++ (u16be v ++ rest)) t =
        .error (.UnsupportedVersion v)) ∧
    (∀ (c : Nat) (rest : List Nat) (t : Nat), c < 65536 → c ≠ 1 →
      parse_rsrc_header (RSRC ++ (u16be 0x100 ++ (u16be c ++ rest))) t =
        .error (.UnsupportedCompaction c)) ∧
    (∀ (fs : Nat) (rest : List Nat) (t : Nat), fs < 4294967296 → fs ≠ t →
      parse_rsrc_header (RSRC ++ (u16be 0x100 ++ (u16be 1 ++ (u32be fs ++ rest)))) t =
        .error .UncoherentFileSize) ∧
    (∀ (s fs : Nat) (rest : List Nat), s < 4294967296 → fs < 4294967296 →
      fs ≠ (s + 8) % 4294967296 →
      parse_headers (MHWK ++ (u32be s ++ (RSRC ++ (u16be 0x100 ++
          (u16be 1 ++ (u32be fs ++ rest)))))) = .error .UncoherentFileSize) ∧
    (∀ (n : Nat) (rest : List Nat) (sz : Nat), 65536 ≤ n → n < 4294967296 →
      parse_file_table (u32be n ++ rest) sz = .error .TooBigFileTable) ∧
    (∀ (n : Nat) (rest : List Nat) (sz : Nat), n < 65536 →
      sz ≠ (4 + n * 10) % 65536 →
      parse_file_table (u32be n ++ rest) sz = .error .UncoherentFileTableSize) := by
  have hiff_ok : ∀ (s : Nat) (rest : List Nat), s < 4294967296 →
      parse_iff_header (MHWK ++ (u32be s ++ rest)) =
        .ok ((s + 8) % 4294967296, rest) := by
    intro s rest hs
    have h1 := read_4_bytes_of_length MHWK (u32be s ++ rest) rfl
    have h2 := read_u32_be s rest hs
    simp [parse_iff_header, h1, h2, bind_ok]
  refine ⟨?_, hiff_ok, ?_, ?_, ?_, ?_, ?_, ?_, ?_⟩
  · intro magic rest h4 hne
    have h1 := read_4_bytes_of_length magic rest h4
    simp [parse_iff_header, h1, bind_ok, hne]
  · intro magic rest t h4 hne
    have h1 := read_4_bytes_of_length magic rest h4
    simp [parse_rsrc_header, h1, bind_ok, hne]
  · intro v rest t hv hne
    have h1 := read_4_bytes_of_length RSRC (u16be v ++ rest) rfl
    have h2 := read_u16_be v rest hv
    simp [parse_rsrc_header, h1, h2, bind_ok, hne]
  · intro c rest t hc hne
    have h1 := read_4_bytes_of_length RSRC (u16be 0x100 ++ (u16be c ++ rest)) rfl
    have h2 := read_u16_be 0x100 (u16be c ++ rest) (by omega)
    have h3 := read_u16_be c rest hc
    simp [parse_rsrc_header, h1, h2, h3, bind_ok, hne]
  · intro fs rest t hfs hne
    have h1 := read_4_bytes_of_length RSRC
      (u16be 0x100 ++ (u16be 1 ++ (u32be fs ++ rest))) rfl
    have h2 := read_u16_be 0x100 (u16be 1 ++ (u32be fs ++ rest)) (by omega)
    have h3 := read_u16_be 1 (u32be fs ++ rest) (by omega)
    have h4 := read_u32_be fs rest hfs
    simp [parse_rsrc_header, h1, h2, h3, h4, bind_ok, hne]
  · intro s fs rest hs hfs hne
    have h0 := hiff_ok s (RSRC ++ (u16be 0x100 ++ (u16be 1 ++ (u32be fs ++ rest)))) hs
    have h1 := read_4_bytes_of_length RSRC
      (u16be 0x100 ++ (u16be 1 ++ (u32be fs ++ rest))) rfl
    have h2 := read_u16_be 0x100 (u16be 1 ++ (u32be fs ++ rest)) (by omega)
    have h3 := read_u16_be 1 (u32be fs ++ rest) (by omega)
    have h4 := read_u32_be fs rest hfs
    simp [parse_headers, parse_rsrc_header, h0, h1, h2, h3, h4, bind_ok, hne]
  · intro n rest sz hn hn32
    have h1 := read_u32_be n rest hn32
    simp [parse_file_table, h1, bind_ok, hn]
  · intro n rest sz hn hne
    have h1 := read_u32_be n rest (by omega)
    have h2 : ¬ n ≥ 65536 := by omega
    have h3 : (4 + n * 10) % 65536 ≠ sz := fun hc => hne hc.symm
    simp [parse_file_table, h1, bind_ok, h2, h3]

end Mohawk

namespace Mohawk

/-- Counterexample to claim C5 as stated: for `file_count = 6554` and
`file_table_size = 8`, the size field differs from `4 + 6554 * 10 = 65544`,
yet the parser does not fail with `UncoherentFileTableSize` — the u16
computation `4 + 6554 * 10` wraps to `8`, the check passes, and parsing
proceeds into the entry loop (here failing with an I/O error on the empty
remainder). -/
theorem c5_counterexample :
    parse_file_table (u32be 6554 ++ []) 8 = .error .io ∧
    (8 : Nat) ≠ 4 + 6554 * 10 ∧
    parse_file_table (u32be 6554 ++ []) 8 ≠ .error .UncoherentFileTableSize := by
  refine ⟨by decide, by decide, by decide⟩

/-- Witness for C5 at concrete inputs, one per error condition. -/
theorem c5_witness :
    parse_iff_header ([0, 0, 0, 0] ++ []) = .error .IFFSignature ∧
    parse_iff_header (MHWK ++ (u32be 20 ++ [])) = .ok ((20 + 8) % 4294967296, []) ∧
    parse_rsrc_header ([0, 0, 0, 0] ++ []) 0 = .error .RSRCSignature ∧
    parse_rsrc_header (RSRC ++ (u16be 0x200 ++ [])) 0 =
      .error (.UnsupportedVersion 0x200) ∧
    parse_rsrc_header (RSRC ++ (u16be 0x100 ++ (u16be 2 ++ []))) 0 =
      .error (.UnsupportedCompaction 2) ∧
    parse_rsrc_header (RSRC ++ (u16be 0x100 ++ (u16be 1 ++ (u32be 99 ++ [])))) 28 =
      .error .UncoherentFileSize ∧
    parse_headers (MHWK ++ (u32be 20 ++ (RSRC ++ (u16be 0x100 ++
        (u16be 1 ++ (u32be 99 ++ [])))))) = .error .UncoherentFileSize ∧
    parse_file_table (u32be 65536 ++ []) 4 = .error .TooBigFileTable ∧
    parse_file_table (u32be 1 ++ []) 4 = .error .UncoherentFileTableSize := by
  have h := c5_theorem
  exact ⟨h.1 [0, 0, 0, 0] [] (by decide) (by decide),
    h.2.1 20 [] (by decide),
    h.2.2.1 [0, 0, 0, 0] [] 0 (by decide) (by decide),
    h.2.2.2.1 0x200 [] 0 (by decide) (by decide),
    h.2.2.2.2.1 2 [] 0 (by decide) (by decide),
    h.2.2.2.2.2.1 99 [] 28 (by decide) (by decide),
    h.2.2.2.2.2.2.1 20 99 [] (by decide) (by decide) (by decide),
    h.2.2.2.2.2.2.2.1 65536 [] 4 (by decide) (by decide),
    h.2.2.2.2.2.2.2.2 1 [] 4 (by decide) (by decide)⟩

/-- Claim C6, evaluated at the failing input (a code bug): the resource
table stores `file_id_plus_one = 1` for resource 1, so its FileID is 0; the
name table associates the name `"foo"` (bytes `[102, 111, 111]`) with
ResourceID 1; the file table holds file 0.  The join removes the name keyed
by the FILE id (`resource_id_to_name.remove(&file_id)`), so the resource
comes out with `name = none` even though the name table names its
ResourceID. -/
theorem c6_name_join_eval :
    parse_resource_table [0, 1, 0, 1, 0, 1] = .ok ([(1, 0)], []) ∧
    mohawk_join [(0, ⟨4, 2, 0, 0⟩)]
        [([80, 73, 67, 84], [(1, 0)], [(1, [102, 111, 111])])] =
      .ok ([([80, 73, 67, 84], [(1, ⟨none, ⟨4, 2, 0, 0⟩⟩)])], []) ∧
    ([(1, [102, 111, 111])].lookup 1 = some [102, 111, 111]) := by
  refine ⟨by decide, by decide, by decide⟩

end Mohawk

/-! ## PICT decoding (`src/pict-decoder`) -/

namespace Pict

/-- The ways the pict-decoder can abort the process (Rust panics), kept
apart from returned errors: `eob` models `bytes::Buf`'s panic on reading
past the end of the buffer, `assertAlign` the 2-byte-alignment assert at the
end of `Operation::parse`, and `other` every other panic
(`panic!`/`todo!`/`assert!`/`expect`/`unwrap`/arithmetic overflow). -/
inductive Panic where
  | eob
  | assertAlign
  | other
deriving DecidableEq, Repr

/-- `Error` of `pict-decoder/src/lib.rs` (plus `UnexpectedEOB` and
`InvalidFiller`, which `utils.rs`/`operation.rs` construct; `reader` stands
for any wrapped I/O error). -/
inductive PError where
  | reader
  | nonEmptyHeader
  | unsupportedVersion (v : Nat)
  | unsupportedHeaderVersion (v : Int)
  | unsupportedOpcode (tag : Nat)
  | unexpectedOpcode (tag : Nat)
  | invalidCP1252
  | invalidUTF8
  | dataRemaining
  | unableToFindImage
  | unexpectedEOB
  | invalidFiller (fill : Nat)
deriving DecidableEq, Repr

/-- Outcome of running a piece of the pict-decoder: a value, a returned
error, or a process abort. -/
inductive PRes (α : Type) where
  | ok (a : α)
  | err (e : PError)
  | panic (p : Panic)
deriving DecidableEq, Repr

def PRes.bind {α β : Type} : PRes α → (α → PRes β) → PRes β
  | .ok a, f => f a
  | .err e, _ => .err e
  | .panic p, _ => .panic p

instance : Monad PRes where
  pure := .ok
  bind := PRes.bind

/-- `bytes::Buf::get_u8`: panics when the buffer is exhausted. -/
def get_u8 : List Nat → PRes (Nat × List Nat)
  | [] => .panic .eob
  | b :: r => .ok (b, r)

/-- `bytes::Buf::get_u16` (big-endian). -/
def get_u16 : List Nat → PRes (Nat × List Nat)
  | b0 :: b1 :: r => .ok (b0 * 256 + b1, r)
  | _ => .panic .eob

/-- `bytes::Buf::get_u32` (big-endian). -/
def get_u32 : List Nat → PRes (Nat × List Nat)
  | b0 :: b1 :: b2 :: b3 :: r =>
      .ok (((b0 * 256 + b1) * 256 + b2) * 256 + b3, r)
  | _ => .panic .eob

/-- Signed interpretation of a 16-bit big-endian value. -/
def i16val (v : Nat) : Int :=
  if v < 32768 then (v : Int) else (v : Int) - 65536

/-- `bytes::Buf::get_i16` (big-endian). -/
def get_i16 : List Nat → PRes (Int × List Nat)
  | b0 :: b1 :: r => .ok (i16val (b0 * 256 + b1), r)
  | _ => .panic .eob

/-- `bytes::Buf::copy_to_slice` into an `n`-byte buffer: panics when fewer
than `n` bytes remain. -/
def copy_bytes (n : Nat) (l : List Nat) : PRes (List Nat × List Nat) :=
  if n ≤ l.length then .ok (l.take n, l.drop n) else .panic .eob

/-- `skip_filler` of `utils.rs`: one byte that must be zero. -/
def skip_filler : List Nat → PRes (Unit × List Nat)
  | [] => .panic .eob
  | fill :: r => if fill ≠ 0 then .err (.invalidFiller fill) else .ok ((), r)

/-- `skip_reserved` of `utils.rs`: `ensure_remains_bytes` then read `amount`
bytes (nonzero content only warns). -/
def skip_reserved (amount : Nat) (l : List Nat) : PRes (Unit × List Nat) :=
  if l.length < amount then .err .unexpectedEOB else .ok ((), l.drop amount)

/-- `Rectangle` of `rectangle.rs` (four u16 fields). -/
structure Rectangle where
  top : Nat
  left : Nat
  bottom : Nat
  right : Nat
deriving DecidableEq, Repr

/-- `Rectangle::parse`: `ensure_remains_bytes(8)` then four u16 reads. -/
def Rectangle.parse (l : List Nat) : PRes (Rectangle × List Nat) :=
  if l.length < 8 then .err .unexpectedEOB
  else do
    let (top, l) ← get_u16 l
    let (left, l) ← get_u16 l
    let (bottom, l) ← get_u16 l
    let (right, l) ← get_u16 l
    .ok (⟨top, left, bottom, right⟩, l)

/-- `Point` of `point.rs` (two u16 fields). -/
structure Point where
  x : Nat
  y : Nat
deriving DecidableEq, Repr

/-- `Point::parse`: `ensure_remains_bytes(4)` then two u16 reads. -/
def Point.parse (l : List Nat) : PRes (Point × List Nat) :=
  if l.length < 4 then .err .unexpectedEOB
  else do
    let (x, l) ← get_u16 l
    let (y, l) ← get_u16 l
    .ok (⟨x, y⟩, l)

/-- Read `n` consecutive u32 values. -/
def read_u32s : Nat → List Nat → PRes (List Nat × List Nat)
  | 0, l => .ok ([], l)
  | n + 1, l => do
      let (v, l) ← get_u32 l
      let (vs, l) ← read_u32s n l
      .ok (v :: vs, l)

/-- `Matrix` of `quicktime/matrix.rs`: nine u32 values (row-major 3×3). -/
structure Matrix where
  entries : List Nat
deriving DecidableEq, Repr

/-- `Matrix::parse`: `ensure_remains_bytes(36)` then nine u32 reads. -/
def Matrix.parse (l : List Nat) : PRes (Matrix × List Nat) :=
  if l.length < 36 then .err .unexpectedEOB
  else do
    let (vs, l) ← read_u32s 9 l
    .ok (⟨vs⟩, l)

end Pict

namespace Pict

/-- `PixelType` of `pixmap.rs`. -/
inductive PixelType where
  | Indexed
  | Direct
deriving DecidableEq, Repr

/-- `PixelType::from_repr`. -/
def PixelType.fromRepr : Nat → Option PixelType
  | 0 => some .Indexed
  | 16 => some .Direct
  | _ => none

/-- `PixMap` of `pixmap.rs`. -/
structure PixMap where
  base_addr : Nat
  row_bytes : Nat
  pointed_is_pixmap_record : Bool
  bounds : Rectangle
  version : Nat
  pack_type : Nat
  pack_size : Nat
  horizontal_resolution : Nat
  vertical_resolution : Nat
  pixel_type : PixelType
  pixel_size : Nat
  components_count : Nat
  components_size : Nat
  plane_offset : Nat
  color_table_addr : Nat
deriving DecidableEq, Repr

/-- `PixMap::parse` of `pixmap.rs`: `ensure_remains_bytes(50)`, then the
fields, panicking (per the source's `panic!`/`expect`) on odd or oversized
row bytes, a set 15th flag bit, a nonzero version, `pack_type >= 5`, a
packed size without packing, or an unknown pixel type; misaligned base
addresses and unoptimal row bytes only warn. -/
def PixMap.parse (l : List Nat) : PRes (PixMap × List Nat) :=
  if l.length < 50 then .err .unexpectedEOB
  else do
    let (base_addr, l) ← get_u32 l
    let (row_bytes_and_flag, l) ← get_u16 l
    let row_bytes := row_bytes_and_flag % 16384
    if row_bytes % 2 ≠ 0 ∨ row_bytes ≥ 16384 then .panic .other
    else
      let flags := row_bytes_and_flag / 16384
      if flags % 2 ≠ 0 then .panic .other
      else
        let pointed_is_pixmap_record := flags = 2
        do
          let (bounds, l) ← Rectangle.parse l
          let (version, l) ← get_u16 l
          if version ≠ 0 then .panic .other
          else do
            let (pack_type, l) ← get_u16 l
            if pack_type ≥ 5 then .panic .other
            else do
              let (pack_size, l) ← get_u32 l
              if pack_type = 0 ∧ pack_size ≠ 0 then .panic .other
              else do
                let (horizontal_resolution, l) ← get_u32 l
                let (vertical_resolution, l) ← get_u32 l
                let (pixel_type_raw, l) ← get_u16 l
                match PixelType.fromRepr pixel_type_raw with
                | none => .panic .other
                | some pixel_type => do
                    let (pixel_size, l) ← get_u16 l
                    let (components_count, l) ← get_u16 l
                    let (components_size, l) ← get_u16 l
                    let (plane_offset, l) ← get_u32 l
                    let (color_table_addr, l) ← get_u32 l
                    let (_, l) ← skip_reserved 4 l
                    .ok (⟨base_addr, row_bytes, pointed_is_pixmap_record, bounds,
                      version, pack_type, pack_size, horizontal_resolution,
                      vertical_resolution, pixel_type, pixel_size,
                      components_count, components_size, plane_offset,
                      color_table_addr⟩, l)

/-- A UTF-8 continuation byte. -/
def utf8Cont (b : Nat) : Bool := 128 ≤ b && b ≤ 191

/-- Strict UTF-8 validity of a byte list, as `String::from_utf8` checks it. -/
def utf8Valid : List Nat → Bool
  | [] => true
  | b :: r =>
      if b < 128 then utf8Valid r
      else if 194 ≤ b && b ≤ 223 then
        match r with
        | c1 :: r1 => utf8Cont c1 && utf8Valid r1
        | _ => false
      else if b = 224 then
        match r with
        | c1 :: c2 :: r2 =>
            (160 ≤ c1 && c1 ≤ 191) && (utf8Cont c2 && utf8Valid r2)
        | _ => false
      else if 225 ≤ b && b ≤ 236 then
        match r with
        | c1 :: c2 :: r2 => utf8Cont c1 && (utf8Cont c2 && utf8Valid r2)
        | _ => false
      else if b = 237 then
        match r with
        | c1 :: c2 :: r2 =>
            (128 ≤ c1 && c1 ≤ 159) && (utf8Cont c2 && utf8Valid r2)
        | _ => false
      else if 238 ≤ b && b ≤ 239 then
        match r with
        | c1 :: c2 :: r2 => utf8Cont c1 && (utf8Cont c2 && utf8Valid r2)
        | _ => false
      else if b = 240 then
        match r with
        | c1 :: c2 :: c3 :: r3 =>
            (144 ≤ c1 && c1 ≤ 191) && (utf8Cont c2 && (utf8Cont c3 && utf8Valid r3))
        | _ => false
      else if 241 ≤ b && b ≤ 243 then
        match r with
        | c1 :: c2 :: c3 :: r3 =>
            utf8Cont c1 && (utf8Cont c2 && (utf8Cont c3 && utf8Valid r3))
        | _ => false
      else if b = 244 then
        match r with
        | c1 :: c2 :: c3 :: r3 =>
            (128 ≤ c1 && c1 ≤ 143) && (utf8Cont c2 && (utf8Cont c3 && utf8Valid r3))
        | _ => false
      else false

/-- `ImageDescription` of `quicktime/image_description.rs` (name kept as raw
bytes; its 31-byte field is validated as UTF-8 like `String::from_utf8`). -/
structure ImageDescription where
  compressor_type : List Nat
  version : Nat
  revision : Nat
  vendor : List Nat
  temporal_quality : Nat
  spatial_quality : Nat
  width : Nat
  height : Nat
  horizontal_resolution : Nat
  vertical_resolution : Nat
  data_size : Nat
  frame_count : Nat
  name : List Nat
  depth : Nat
  color_table_id : Nat
deriving DecidableEq, Repr

/-- `ImageDescription::RAW_SIZE`. -/
def ImageDescription.RAW_SIZE : Nat := 86

/-- `ImageDescription::parse` of `quicktime/image_description.rs`: a
struct size other than 86 panics; the Pascal string is 1 length byte plus 31
raw bytes (`split_off` past the end panics, trailing nonzero bytes only
warn); invalid UTF-8 in the name is an error. -/
def ImageDescription.parse (l : List Nat) : PRes (ImageDescription × List Nat) := do
  let (struct_size, l) ← get_u32 l
  if struct_size ≠ 86 then .panic .other
  else do
    let (compressor_type, l) ← copy_bytes 4 l
    let (_, l) ← skip_reserved 8 l
    let (version, l) ← get_u16 l
    let (revision, l) ← get_u16 l
    let (vendor, l) ← copy_bytes 4 l
    let (temporal_quality, l) ← get_u32 l
    let (spatial_quality, l) ← get_u32 l
    let (width, l) ← get_u16 l
    let (height, l) ← get_u16 l
    let (horizontal_resolution, l) ← get_u32 l
    let (vertical_resolution, l) ← get_u32 l
    let (data_size, l) ← get_u32 l
    let (frame_count, l) ← get_u16 l
    let (name_size, l) ← get_u8 l
    let (raw, l) ← copy_bytes 31 l
    if name_size > 31 then .panic .other
    else
      let name := raw.take name_size
      if ¬ utf8Valid name then .err .invalidUTF8
      else do
        let (depth, l) ← get_u16 l
        let (color_table_id, l) ← get_u16 l
        .ok (⟨compressor_type, version, revision, vendor, temporal_quality,
          spatial_quality, width, height, horizontal_resolution,
          vertical_resolution, data_size, frame_count, name, depth,
          color_table_id⟩, l)

end Pict

namespace Pict

/-- `Opcode` of `operation.rs` (the 16 recognised opcode numbers). -/
inductive Opcode where
  | Nop
  | Clip
  | TxFont
  | TxFace
  | PnSize
  | TxSize
  | TxRatio
  | VersionOp
  | DefHilite
  | LongText
  | DirectBitsRect
  | LongComment
  | OpEndPic
  | Version
  | HeaderOp
  | CompressedQuickTime
deriving DecidableEq, Repr

/-- The `repr(u16)` value of each opcode (`opcode as u16`). -/
def Opcode.toNat : Opcode → Nat
  | .Nop => 0x0000
  | .Clip => 0x0001
  | .TxFont => 0x0003
  | .TxFace => 0x0004
  | .PnSize => 0x0007
  | .TxSize => 0x000D
  | .TxRatio => 0x0010
  | .VersionOp => 0x0011
  | .DefHilite => 0x001E
  | .LongText => 0x0028
  | .DirectBitsRect => 0x009A
  | .LongComment => 0x00A1
  | .OpEndPic => 0x00FF
  | .Version => 0x02FF
  | .HeaderOp => 0x0C00
  | .CompressedQuickTime => 0x8200

/-- `Opcode::from_repr`. -/
def Opcode.fromRepr : Nat → Option Opcode
  | 0x0000 => some .Nop
  | 0x0001 => some .Clip
  | 0x0003 => some .TxFont
  | 0x0004 => some .TxFace
  | 0x0007 => some .PnSize
  | 0x000D => some .TxSize
  | 0x0010 => some .TxRatio
  | 0x0011 => some .VersionOp
  | 0x001E => some .DefHilite
  | 0x0028 => some .LongText
  | 0x009A => some .DirectBitsRect
  | 0x00A1 => some .LongComment
  | 0x00FF => some .OpEndPic
  | 0x02FF => some .Version
  | 0x0C00 => some .HeaderOp
  | 0x8200 => some .CompressedQuickTime
  | _ => none

/-- `Operation` of `operation.rs`; text operands are kept as the raw
windows-1252 bytes (that decoding is a total per-byte injection). -/
inductive Operation where
  | Nop
  | Clip (size : Nat) (bounding : Rectangle)
  | TxFont (font : Int)
  | TxFace (face : Nat)
  | PnSize (p : Point)
  | TxSize (v : Int)
  | TxRatio (numerator denominator : Point)
  | VersionOp
  | DefHilite
  | LongText (location : Point) (text : List Nat)
  | DirectBitsRect (pix_map : PixMap) (source destination : Rectangle)
      (mode : Nat) (pix_data : List Nat)
  | LongComment (kind : Int) (text : List Nat)
  | OpEndPic
  | Version
  | HeaderOp (version : Int) (resolution : Nat × Nat) (source : Rectangle)
  | CompressedQuickTime (version : Nat) (transformation : Matrix)
      (matte_rect : Rectangle) (mode : Nat) (source : Rectangle)
      (accuracy : Nat) (mask : Option (List Nat)) (data : List Nat)
deriving DecidableEq, Repr

/-- `Operation::opcode`. -/
def Operation.opcode : Operation → Opcode
  | .Nop => .Nop
  | .Clip _ _ => .Clip
  | .TxFont _ => .TxFont
  | .TxFace _ => .TxFace
  | .PnSize _ => .PnSize
  | .TxSize _ => .TxSize
  | .TxRatio _ _ => .TxRatio
  | .VersionOp => .VersionOp
  | .DefHilite => .DefHilite
  | .LongText _ _ => .LongText
  | .DirectBitsRect _ _ _ _ _ => .DirectBitsRect
  | .LongComment _ _ => .LongComment
  | .OpEndPic => .OpEndPic
  | .Version => .Version
  | .HeaderOp _ _ _ => .HeaderOp
  | .CompressedQuickTime _ _ _ _ _ _ _ _ => .CompressedQuickTime

/-- The windows-1252 text read of the `LongText` branch of
`Operation::parse`: the decode loop consumes exactly `count` bytes when they
are available (windows-1252 is a total single-byte decoding, so it is never
malformed and output-full just grows the string), and reports
`UnexpectedEOB` when the buffer ends first (`InputEmpty` without
`last_chunk`). -/
def read_text (count : Nat) (l : List Nat) : PRes (List Nat × List Nat) :=
  if count ≤ l.length then .ok (l.take count, l.drop count)
  else .err .unexpectedEOB

/-- One row of `pack_type == 4` pixel data in the `DirectBitsRect` branch of
`Operation::parse`: the encoded row length is a u16 when `row_bytes > 250`,
else a u8 (which flips the parity bit); the row is PackBits-decoded
(`finalize().unwrap()` panics on a dangling run), split in three equal
thirds (the `split_at` length asserts panic otherwise) and interleaved from
planar to `R G B R G B …`. -/
def parse_packed_line (row_bytes : Nat) (odd : Bool) (l : List Nat) :
    PRes ((List Nat × Bool) × List Nat) :=
  let sized : PRes ((Nat × Bool) × List Nat) :=
    if 250 < row_bytes then
      match get_u16 l with
      | .ok (v, l1) => .ok ((v, odd), l1)
      | .err e => .err e
      | .panic p => .panic p
    else
      match get_u8 l with
      | .ok (v, l1) => .ok ((v, !odd), l1)
      | .err e => .err e
      | .panic p => .panic p
  match sized with
  | .err e => .err e
  | .panic p => .panic p
  | .ok ((encoded_line_size, odd1), l1) =>
      match copy_bytes encoded_line_size l1 with
      | .err e => .err e
      | .panic p => .panic p
      | .ok (encoded_line, l2) =>
          let odd2 := xor odd1 (decide (encoded_line_size % 2 = 1))
          let decoded := PackBits.Decoder.decode_on .Idle encoded_line
          match PackBits.Decoder.finalize decoded.1 with
          | .error _ => .panic .other
          | .ok _ =>
              let line := decoded.2
              if line.length / 3 ≠ line.length - 2 * (line.length / 3) then
                .panic .other
              else
                let r := line.take (line.length / 3)
                let gb := line.drop (line.length / 3)
                let g := gb.take (line.length / 3)
                let b := gb.drop (line.length / 3)
                let interleaved :=
                  ((r.zip g).zip b).flatMap (fun p => [p.1.1, p.1.2, p.2])
                .ok ((interleaved, odd2), l2)

/-- The `for _ in 0..bound_height` loop over packed rows. -/
def parse_packed_lines (row_bytes : Nat) :
    Nat → Bool → List Nat → List Nat → PRes ((List Nat × Bool) × List Nat)
  | 0, odd, acc, l => .ok ((acc, odd), l)
  | n + 1, odd, acc, l =>
      match parse_packed_line row_bytes odd l with
      | .err e => .err e
      | .panic p => .panic p
      | .ok ((interleaved, odd1), l1) =>
          parse_packed_lines row_bytes n odd1 (acc ++ interleaved) l1

/-- The per-opcode operand parsing of `Operation::parse` (`operation.rs`),
one arm per recognised opcode. -/
def parse_operands : Opcode → List Nat → PRes (Operation × List Nat)
  | .Nop, l => .ok (.Nop, l)
  | .Clip, l => do
      let (size, l) ← get_u16 l
      let (bounding, l) ← Rectangle.parse l
      .ok (.Clip size bounding, l)
  | .TxFont, l => do
      let (font, l) ← get_i16 l
      .ok (.TxFont font, l)
  | .TxFace, l => do
      let (face, l) ← get_u8 l
      let (_, l) ← skip_filler l
      .ok (.TxFace face, l)
  | .PnSize, l => do
      let (p, l) ← Point.parse l
      .ok (.PnSize p, l)
  | .TxSize, l => do
      let (v, l) ← get_i16 l
      .ok (.TxSize v, l)
  | .TxRatio, l => do
      let (numerator, l) ← Point.parse l
      let (denominator, l) ← Point.parse l
      .ok (.TxRatio numerator denominator, l)
  | .VersionOp, l => .ok (.VersionOp, l)
  | .DefHilite, l => .ok (.DefHilite, l)
  | .LongText, l => do
      let (location, l) ← Point.parse l
      let (count, l) ← get_u8 l
      let need_filler := count % 2 = 0
      let (text, l) ← read_text count l
      if need_filler then do
        let (_, l) ← skip_filler l
        .ok (.LongText location text, l)
      else .ok (.LongText location text, l)
  | .DirectBitsRect, l => do
      let (pix_map, l) ← PixMap.parse l
      if pix_map.base_addr ≠ 0xFF then .panic .other
      else do
        let (source, l) ← Rectangle.parse l
        let (destination, l) ← Rectangle.parse l
        let (mode, l) ← get_u16 l
        -- u16 wrapping subtraction (bounds.bottom - bounds.top in release Rust)
        let bound_height := (pix_map.bounds.bottom + 65536 - pix_map.bounds.top) % 65536
        match pix_map.pack_type with
        | 1 => do
            let size := pix_map.row_bytes * bound_height
            let (pix_data, l) ← copy_bytes size l
            if size % 2 = 1 then do
              let (_, l) ← skip_filler l
              .ok (.DirectBitsRect pix_map source destination mode pix_data, l)
            else .ok (.DirectBitsRect pix_map source destination mode pix_data, l)
        | 4 => do
            let ((pix_data, odd_bytes_count_read), l) ←
              parse_packed_lines pix_map.row_bytes bound_height false [] l
            if odd_bytes_count_read then do
              let (_, l) ← skip_filler l
              .ok (.DirectBitsRect pix_map source destination mode pix_data, l)
            else .ok (.DirectBitsRect pix_map source destination mode pix_data, l)
        | _ => .panic .other
  | .LongComment, l => do
      let (kind, l) ← get_i16 l
      let (size, l) ← get_u16 l
      let (text, l) ← copy_bytes size l
      .ok (.LongComment kind text, l)
  | .OpEndPic, l => .ok (.OpEndPic, l)
  | .Version, l => .ok (.Version, l)
  | .HeaderOp, l => do
      let (version, l) ← get_i16 l
      let (_, l) ← skip_reserved 2 l
      let (res_h, l) ← get_u32 l
      let (res_v, l) ← get_u32 l
      let (source_rect, l) ← Rectangle.parse l
      let (_, l) ← skip_reserved 4 l
      .ok (.HeaderOp version (res_h, res_v) source_rect, l)
  | .CompressedQuickTime, l => do
      let (size, l) ← get_u32 l
      if size % 2 ≠ 0 then .panic .other
      else do
        let (version, l) ← get_u16 l
        let (transformation, l) ← Matrix.parse l
        let (matte_size, l) ← get_u32 l
        let (matte_rect, l) ← Rectangle.parse l
        let (mode, l) ← get_u16 l
        let (source, l) ← Rectangle.parse l
        let (accuracy, l) ← get_u32 l
        let (mask_size, l) ← get_u32 l
        if matte_size > 0 then .panic .other
        else do
          let (mask, l) ←
            (if mask_size > 0 then
              match copy_bytes mask_size l with
              | .ok (m, l1) => (.ok (some m, l1) : PRes (Option (List Nat) × List Nat))
              | .err e => .err e
              | .panic p => .panic p
            else .ok (none, l))
          let (img_desc, l) ← ImageDescription.parse l
          let (data, l) ← copy_bytes img_desc.data_size l
          -- `size - data_size - 68 - RAW_SIZE` is a usize subtraction: on
          -- underflow the release build wraps to a huge diff and the
          -- `diff > 1` check panics; the debug build panics on the overflow
          if size < img_desc.data_size + 68 + ImageDescription.RAW_SIZE then
            .panic .other
          else
            let diff := size - img_desc.data_size - 68 - ImageDescription.RAW_SIZE
            if diff > 1 then .panic .other
            else if diff ≠ 0 then do
              let (_, l) ← skip_filler l
              .ok (.CompressedQuickTime version transformation matte_rect mode
                source accuracy mask data, l)
            else
              .ok (.CompressedQuickTime version transformation matte_rect mode
                source accuracy mask data, l)

/-- `Operation::parse` of `operation.rs`: read the u16 tag
(`UnsupportedOpcode` for unrecognised values), parse the operands, then run
the source's two asserts: the parsed operation must report the parsed
opcode, and the total byte count consumed — `pos - buf.remaining()` — must
be even (the 2-byte-alignment assert, `Panic.assertAlign`). -/
def Operation.parse (buf : List Nat) : PRes (Operation × List Nat) :=
  let pos := buf.length
  match get_u16 buf with
  | .err e => .err e
  | .panic p => .panic p
  | .ok (raw, l) =>
      match Opcode.fromRepr raw with
      | none => .err (.unsupportedOpcode raw)
      | some opcode =>
          match parse_operands opcode l with
          | .err e => .err e
          | .panic p => .panic p
          | .ok (op, rest) =>
              if op.opcode ≠ opcode then .panic .other
              else if (pos - rest.length) % 2 ≠ 0 then .panic .assertAlign
              else .ok (op, rest)

end Pict

namespace Pict

/-! ### Byte-consumption bounds for the opcode parser -/

lemma pbind_ok {α β : Type} {x : PRes α} {f : α → PRes β} {b : β}
    (h : (x >>= f) = .ok b) : ∃ a, x = .ok a ∧ f a = .ok b := by
  cases x with
  | ok a => exact ⟨a, rfl, h⟩
  | err e => exact absurd h (by simp [Bind.bind, PRes.bind])
  | panic p => exact absurd h (by simp [Bind.bind, PRes.bind])

lemma get_u8_len {l : List Nat} {v : Nat} {r : List Nat}
    (h : get_u8 l = .ok (v, r)) : r.length + 1 = l.length := by
  match l with
  | [] => exact absurd h (by simp [get_u8])
  | b :: t =>
      simp only [get_u8, PRes.ok.injEq, Prod.mk.injEq] at h
      obtain ⟨-, rfl⟩ := h
      simp

lemma get_u16_len {l : List Nat} {v : Nat} {r : List Nat}
    (h : get_u16 l = .ok (v, r)) : r.length + 2 = l.length := by
  match l with
  | [] => exact absurd h (by simp [get_u16])
  | [b0] => exact absurd h (by simp [get_u16])
  | b0 :: b1 :: t =>
      simp only [get_u16, PRes.ok.injEq, Prod.mk.injEq] at h
      obtain ⟨-, rfl⟩ := h
      simp

lemma get_u32_len {l : List Nat} {v : Nat} {r : List Nat}
    (h : get_u32 l = .ok (v, r)) : r.length + 4 = l.length := by
  match l with
  | [] => exact absurd h (by simp [get_u32])
  | [b0] => exact absurd h (by simp [get_u32])
  | [b0, b1] => exact absurd h (by simp [get_u32])
  | [b0, b1, b2] => exact absurd h (by simp [get_u32])
  | b0 :: b1 :: b2 :: b3 :: t =>
      simp only [get_u32, PRes.ok.injEq, Prod.mk.injEq] at h
      obtain ⟨-, rfl⟩ := h
      simp

lemma get_i16_len {l : List Nat} {v : Int} {r : List Nat}
    (h : get_i16 l = .ok (v, r)) : r.length + 2 = l.length := by
  match l with
  | [] => exact absurd h (by simp [get_i16])
  | [b0] => exact absurd h (by simp [get_i16])
  | b0 :: b1 :: t =>
      simp only [get_i16, PRes.ok.injEq, Prod.mk.injEq] at h
      obtain ⟨-, rfl⟩ := h
      simp

lemma copy_bytes_le {n : Nat} {l : List Nat} {v r : List Nat}
    (h : copy_bytes n l = .ok (v, r)) : r.length ≤ l.length := by
  unfold copy_bytes at h
  split at h
  · simp only [PRes.ok.injEq, Prod.mk.injEq] at h
    obtain ⟨-, rfl⟩ := h
    simp
  · exact absurd h (by simp)

lemma skip_filler_len {l : List Nat} {v : Unit} {r : List Nat}
    (h : skip_filler l = .ok (v, r)) : r.length + 1 = l.length := by
  match l with
  | [] => exact absurd h (by simp [skip_filler])
  | fill :: t =>
      by_cases hf : fill ≠ 0
      · rw [show skip_filler (fill :: t) =
          .err (.invalidFiller fill) from by simp [skip_filler, hf]] at h
        exact absurd h (by simp)
      · rw [show skip_filler (fill :: t) = .ok ((), t) from by
          simp [skip_filler, hf]] at h
        simp only [PRes.ok.injEq, Prod.mk.injEq] at h
        obtain ⟨-, rfl⟩ := h
        simp

lemma skip_reserved_le {amount : Nat} {l : List Nat} {v : Unit} {r : List Nat}
    (h : skip_reserved amount l = .ok (v, r)) : r.length ≤ l.length := by
  unfold skip_reserved at h
  split at h
  · exact absurd h (by simp)
  · simp only [PRes.ok.injEq, Prod.mk.injEq] at h
    obtain ⟨-, rfl⟩ := h
    simp

lemma read_text_le {count : Nat} {l : List Nat} {v r : List Nat}
    (h : read_text count l = .ok (v, r)) : r.length ≤ l.length := by
  unfold read_text at h
  split at h
  · simp only [PRes.ok.injEq, Prod.mk.injEq] at h
    obtain ⟨-, rfl⟩ := h
    simp
  · exact absurd h (by simp)

lemma rectangle_parse_le {l : List Nat} {v : Rectangle} {r : List Nat}
    (h : Rectangle.parse l = .ok (v, r)) : r.length ≤ l.length := by
  unfold Rectangle.parse at h
  split at h
  · exact absurd h (by simp)
  · rcases pbind_ok h with ⟨⟨a1, l1⟩, h1, h⟩
    rcases pbind_ok h with ⟨⟨a2, l2⟩, h2, h⟩
    rcases pbind_ok h with ⟨⟨a3, l3⟩, h3, h⟩
    rcases pbind_ok h with ⟨⟨a4, l4⟩, h4, h⟩
    simp only [PRes.ok.injEq, Prod.mk.injEq] at h
    obtain ⟨-, rfl⟩ := h
    have e1 := get_u16_len h1
    have e2 := get_u16_len h2
    have e3 := get_u16_len h3
    have e4 := get_u16_len h4
    omega

lemma point_parse_le {l : List Nat} {v : Point} {r : List Nat}
    (h : Point.parse l = .ok (v, r)) : r.length ≤ l.length := by
  unfold Point.parse at h
  split at h
  · exact absurd h (by simp)
  · rcases pbind_ok h with ⟨⟨a1, l1⟩, h1, h⟩
    rcases pbind_ok h with ⟨⟨a2, l2⟩, h2, h⟩
    simp only [PRes.ok.injEq, Prod.mk.injEq] at h
    obtain ⟨-, rfl⟩ := h
    have e1 := get_u16_len h1
    have e2 := get_u16_len h2
    omega

lemma read_u32s_le : ∀ {n : Nat} {l : List Nat} {v r : List Nat},
    read_u32s n l = .ok (v, r) → r.length ≤ l.length := by
  intro n
  induction n with
  | zero =>
      intro l v r h
      simp only [read_u32s, PRes.ok.injEq, Prod.mk.injEq] at h
      obtain ⟨-, rfl⟩ := h
      exact le_rfl
  | succ n ih =>
      intro l v r h
      unfold read_u32s at h
      rcases pbind_ok h with ⟨⟨a1, l1⟩, h1, h⟩
      rcases pbind_ok h with ⟨⟨a2, l2⟩, h2, h⟩
      simp only [PRes.ok.injEq, Prod.mk.injEq] at h
      obtain ⟨-, rfl⟩ := h
      have e1 := get_u32_len h1
      have e2 := ih h2
      omega

lemma matrix_parse_le {l : List Nat} {v : Matrix} {r : List Nat}
    (h : Matrix.parse l = .ok (v, r)) : r.length ≤ l.length := by
  unfold Matrix.parse at h
  split at h
  · exact absurd h (by simp)
  · rcases pbind_ok h with ⟨⟨a1, l1⟩, h1, h⟩
    simp only [PRes.ok.injEq, Prod.mk.injEq] at h
    obtain ⟨-, rfl⟩ := h
    exact read_u32s_le h1

/-- Weakest-precondition style consumption bound: every successful outcome
of `m` leaves a remainder no longer than `l`. -/
def ConsumesLE {α : Type} (m : PRes (α × List Nat)) (l : List Nat) : Prop :=
  ∀ a r, m = .ok (a, r) → r.length ≤ l.length

lemma consumesLE_ok {α : Type} {a : α} {r l : List Nat} (h : r.length ≤ l.length) :
    ConsumesLE (.ok (a, r)) l := by
  intro a2 r2 he
  simp only [PRes.ok.injEq, Prod.mk.injEq] at he
  obtain ⟨-, rfl⟩ := he
  exact h

lemma consumesLE_err {α : Type} {e : PError} {l : List Nat} :
    ConsumesLE (.err e : PRes (α × List Nat)) l := by
  intro a r h
  exact absurd h (by simp)

lemma consumesLE_panic {α : Type} {p : Panic} {l : List Nat} :
    ConsumesLE (.panic p : PRes (α × List Nat)) l := by
  intro a r h
  exact absurd h (by simp)

lemma consumesLE_mono {α : Type} {m : PRes (α × List Nat)} {l1 l2 : List Nat}
    (h : ConsumesLE m l1) (hle : l1.length ≤ l2.length) : ConsumesLE m l2 :=
  fun a r he => le_trans (h a r he) hle

lemma consumesLE_bind {α β : Type} {x : PRes (α × List Nat)}
    {f : α × List Nat → PRes (β × List Nat)} {l : List Nat}
    (hx : ConsumesLE x l)
    (hf : ∀ a r, x = .ok (a, r) → ConsumesLE (f (a, r)) r) :
    ConsumesLE (x >>= f) l := by
  intro b rb h
  rcases pbind_ok h with ⟨⟨a, r⟩, h1, h2⟩
  exact le_trans (hf a r h1 b rb h2) (hx a r h1)

lemma get_u8_consumes (l : List Nat) : ConsumesLE (get_u8 l) l :=
  fun a r h => by have := get_u8_len h; omega

lemma get_u16_consumes (l : List Nat) : ConsumesLE (get_u16 l) l :=
  fun a r h => by have := get_u16_len h; omega

lemma get_u32_consumes (l : List Nat) : ConsumesLE (get_u32 l) l :=
  fun a r h => by have := get_u32_len h; omega

lemma get_i16_consumes (l : List Nat) : ConsumesLE (get_i16 l) l :=
  fun a r h => by have := get_i16_len h; omega

lemma copy_bytes_consumes (n : Nat) (l : List Nat) : ConsumesLE (copy_bytes n l) l :=
  fun a r h => copy_bytes_le h

lemma skip_filler_consumes (l : List Nat) : ConsumesLE (skip_filler l) l :=
  fun a r h => by have := skip_filler_len h; omega

lemma skip_reserved_consumes (amount : Nat) (l : List Nat) :
    ConsumesLE (skip_reserved amount l) l :=
  fun a r h => skip_reserved_le h

lemma read_text_consumes (count : Nat) (l : List Nat) :
    ConsumesLE (read_text count l) l :=
  fun a r h => read_text_le h

lemma rectangle_consumes (l : List Nat) : ConsumesLE (Rectangle.parse l) l :=
  fun a r h => rectangle_parse_le h

lemma point_consumes (l : List Nat) : ConsumesLE (Point.parse l) l :=
  fun a r h => point_parse_le h

lemma matrix_consumes (l : List Nat) : ConsumesLE (Matrix.parse l) l :=
  fun a r h => matrix_parse_le h

lemma pixmap_consumes (l : List Nat) : ConsumesLE (PixMap.parse l) l := by
  unfold PixMap.parse
  split
  · exact consumesLE_err
  · refine consumesLE_bind (get_u32_consumes l) ?_
    intro a1 l1 _
    refine consumesLE_bind (get_u16_consumes l1) ?_
    intro a2 l2 _
    dsimp only
    split
    · exact consumesLE_panic
    · split
      · exact consumesLE_panic
      · refine consumesLE_bind (rectangle_consumes l2) ?_
        intro a3 l3 _
        refine consumesLE_bind (get_u16_consumes l3) ?_
        intro a4 l4 _
        split
        · exact consumesLE_panic
        · refine consumesLE_bind (get_u16_consumes l4) ?_
          intro a5 l5 _
          split
          · exact consumesLE_panic
          · refine consumesLE_bind (get_u32_consumes l5) ?_
            intro a6 l6 _
            split
            · exact consumesLE_panic
            · refine consumesLE_bind (get_u32_consumes l6) ?_
              intro a7 l7 _
              refine consumesLE_bind (get_u32_consumes l7) ?_
              intro a8 l8 _
              refine consumesLE_bind (get_u16_consumes l8) ?_
              intro a9 l9 _
              split
              · exact consumesLE_panic
              · refine consumesLE_bind (get_u16_consumes l9) ?_
                intro a10 l10 _
                refine consumesLE_bind (get_u16_consumes l10) ?_
                intro a11 l11 _
                refine consumesLE_bind (get_u16_consumes l11) ?_
                intro a12 l12 _
                refine consumesLE_bind (get_u32_consumes l12) ?_
                intro a13 l13 _
                refine consumesLE_bind (get_u32_consumes l13) ?_
                intro a14 l14 _
                refine consumesLE_bind (skip_reserved_consumes 4 l14) ?_
                intro a15 l15 _
                exact consumesLE_ok le_rfl

lemma pixmap_parse_le {l : List Nat} {v : PixMap} {r : List Nat}
    (h : PixMap.parse l = .ok (v, r)) : r.length ≤ l.length :=
  pixmap_consumes l v r h

lemma imgdesc_consumes (l : List Nat) : ConsumesLE (ImageDescription.parse l) l := by
  unfold ImageDescription.parse
  refine consumesLE_bind (get_u32_consumes l) ?_
  intro a1 l1 _
  dsimp only
  split
  · exact consumesLE_panic
  · refine consumesLE_bind (copy_bytes_consumes 4 l1) ?_
    intro a2 l2 _
    refine consumesLE_bind (skip_reserved_consumes 8 l2) ?_
    intro a3 l3 _
    refine consumesLE_bind (get_u16_consumes l3) ?_
    intro a4 l4 _
    refine consumesLE_bind (get_u16_consumes l4) ?_
    intro a5 l5 _
    refine consumesLE_bind (copy_bytes_consumes 4 l5) ?_
    intro a6 l6 _
    refine consumesLE_bind (get_u32_consumes l6) ?_
    intro a7 l7 _
    refine consumesLE_bind (get_u32_consumes l7) ?_
    intro a8 l8 _
    refine consumesLE_bind (get_u16_consumes l8) ?_
    intro a9 l9 _
    refine consumesLE_bind (get_u16_consumes l9) ?_
    intro a10 l10 _
    refine consumesLE_bind (get_u32_consumes l10) ?_
    intro a11 l11 _
    refine consumesLE_bind (get_u32_consumes l11) ?_
    intro a12 l12 _
    refine consumesLE_bind (get_u32_consumes l12) ?_
    intro a13 l13 _
    refine consumesLE_bind (get_u16_consumes l13) ?_
    intro a14 l14 _
    refine consumesLE_bind (get_u8_consumes l14) ?_
    intro a15 l15 _
    refine consumesLE_bind (copy_bytes_consumes 31 l15) ?_
    intro a16 l16 _
    split
    · exact consumesLE_panic
    · dsimp only
      split
      · exact consumesLE_err
      · refine consumesLE_bind (get_u16_consumes l16) ?_
        intro a17 l17 _
        refine consumesLE_bind (get_u16_consumes l17) ?_
        intro a18 l18 _
        exact consumesLE_ok le_rfl

lemma packed_line_consumes (row_bytes : Nat) (odd : Bool) (l : List Nat) :
    ConsumesLE (parse_packed_line row_bytes odd l) l := by
  unfold parse_packed_line
  dsimp only
  split
  · exact consumesLE_err
  · exact consumesLE_panic
  · rename_i esize odd1 l1 hsized
    have e1 : l1.length ≤ l.length := by
      split at hsized
      · split at hsized
        · rename_i hu16
          simp only [PRes.ok.injEq, Prod.mk.injEq] at hsized
          obtain ⟨⟨-, -⟩, rfl⟩ := hsized
          have := get_u16_len hu16
          omega
        · exact absurd hsized (by simp)
        · exact absurd hsized (by simp)
      · split at hsized
        · rename_i hu8
          simp only [PRes.ok.injEq, Prod.mk.injEq] at hsized
          obtain ⟨⟨-, -⟩, rfl⟩ := hsized
          have := get_u8_len hu8
          omega
        · exact absurd hsized (by simp)
        · exact absurd hsized (by simp)
    split
    · exact consumesLE_err
    · exact consumesLE_panic
    · rename_i enc l2 hcopy
      have e2 : l2.length ≤ l1.length := copy_bytes_le hcopy
      split
      · exact consumesLE_panic
      · split
        · exact consumesLE_panic
        · exact consumesLE_ok (by omega)

lemma packed_lines_consumes (row_bytes : Nat) :
    ∀ (n : Nat) (odd : Bool) (acc l : List Nat),
      ConsumesLE (parse_packed_lines row_bytes n odd acc l) l := by
  intro n
  induction n with
  | zero =>
      intro odd acc l
      exact consumesLE_ok le_rfl
  | succ n ih =>
      intro odd acc l
      unfold parse_packed_lines
      split
      · exact consumesLE_err
      · exact consumesLE_panic
      · rename_i inter odd1 l1 hline
        exact consumesLE_mono (ih odd1 (acc ++ inter) l1)
          (packed_line_consumes row_bytes odd l (inter, odd1) l1 hline)

lemma operands_consumes (op : Opcode) (l : List Nat) :
    ConsumesLE (parse_operands op l) l := by
  cases op with
  | Nop => exact consumesLE_ok le_rfl
  | Clip =>
      simp only [parse_operands]
      refine consumesLE_bind (get_u16_consumes l) ?_
      intro a1 l1 _
      refine consumesLE_bind (rectangle_consumes l1) ?_
      intro a2 l2 _
      exact consumesLE_ok le_rfl
  | TxFont =>
      simp only [parse_operands]
      refine consumesLE_bind (get_i16_consumes l) ?_
      intro a1 l1 _
      exact consumesLE_ok le_rfl
  | TxFace =>
      simp only [parse_operands]
      refine consumesLE_bind (get_u8_consumes l) ?_
      intro a1 l1 _
      refine consumesLE_bind (skip_filler_consumes l1) ?_
      intro a2 l2 _
      exact consumesLE_ok le_rfl
  | PnSize =>
      simp only [parse_operands]
      refine consumesLE_bind (point_consumes l) ?_
      intro a1 l1 _
      exact consumesLE_ok le_rfl
  | TxSize =>
      simp only [parse_operands]
      refine consumesLE_bind (get_i16_consumes l) ?_
      intro a1 l1 _
      exact consumesLE_ok le_rfl
  | TxRatio =>
      simp only [parse_operands]
      refine consumesLE_bind (point_consumes l) ?_
      intro a1 l1 _
      refine consumesLE_bind (point_consumes l1) ?_
      intro a2 l2 _
      exact consumesLE_ok le_rfl
  | VersionOp => exact consumesLE_ok le_rfl
  | DefHilite => exact consumesLE_ok le_rfl
  | LongText =>
      simp only [parse_operands]
      refine consumesLE_bind (point_consumes l) ?_
      intro a1 l1 _
      refine consumesLE_bind (get_u8_consumes l1) ?_
      intro a2 l2 _
      dsimp only
      refine consumesLE_bind (read_text_consumes a2 l2) ?_
      intro a3 l3 _
      split
      · refine consumesLE_bind (skip_filler_consumes l3) ?_
        intro a4 l4 _
        exact consumesLE_ok le_rfl
      · exact consumesLE_ok le_rfl
  | DirectBitsRect =>
      simp only [parse_operands]
      refine consumesLE_bind (pixmap_consumes l) ?_
      intro pm l1 _
      dsimp only
      split
      · exact consumesLE_panic
      · refine consumesLE_bind (rectangle_consumes l1) ?_
        intro a2 l2 _
        refine consumesLE_bind (rectangle_consumes l2) ?_
        intro a3 l3 _
        refine consumesLE_bind (get_u16_consumes l3) ?_
        intro a4 l4 _
        dsimp only
        split
        · refine consumesLE_bind (copy_bytes_consumes _ l4) ?_
          intro a5 l5 _
          split
          · refine consumesLE_bind (skip_filler_consumes l5) ?_
            intro a6 l6 _
            exact consumesLE_ok le_rfl
          · exact consumesLE_ok le_rfl
        · refine consumesLE_bind
            (packed_lines_consumes pm.row_bytes _ false [] l4) ?_
          intro a5 l5 _
          obtain ⟨pd, ob⟩ := a5
          dsimp only
          split
          · refine consumesLE_bind (skip_filler_consumes l5) ?_
            intro a6 l6 _
            exact consumesLE_ok le_rfl
          · exact consumesLE_ok le_rfl
        · exact consumesLE_panic
  | LongComment =>
      simp only [parse_operands]
      refine consumesLE_bind (get_i16_consumes l) ?_
      intro a1 l1 _
      refine consumesLE_bind (get_u16_consumes l1) ?_
      intro a2 l2 _
      refine consumesLE_bind (copy_bytes_consumes a2 l2) ?_
      intro a3 l3 _
      exact consumesLE_ok le_rfl
  | OpEndPic => exact consumesLE_ok le_rfl
  | Version => exact consumesLE_ok le_rfl
  | HeaderOp =>
      simp only [parse_operands]
      refine consumesLE_bind (get_i16_consumes l) ?_
      intro a1 l1 _
      refine consumesLE_bind (skip_reserved_consumes 2 l1) ?_
      intro a2 l2 _
      refine consumesLE_bind (get_u32_consumes l2) ?_
      intro a3 l3 _
      refine consumesLE_bind (get_u32_consumes l3) ?_
      intro a4 l4 _
      refine consumesLE_bind (rectangle_consumes l4) ?_
      intro a5 l5 _
      refine consumesLE_bind (skip_reserved_consumes 4 l5) ?_
      intro a6 l6 _
      exact consumesLE_ok le_rfl
  | CompressedQuickTime =>
      simp only [parse_operands]
      refine consumesLE_bind (get_u32_consumes l) ?_
      intro size l1 _
      dsimp only
      split
      · exact consumesLE_panic
      · refine consumesLE_bind (get_u16_consumes l1) ?_
        intro a2 l2 _
        refine consumesLE_bind (matrix_consumes l2) ?_
        intro a3 l3 _
        refine consumesLE_bind (get_u32_consumes l3) ?_
        intro a4 l4 _
        refine consumesLE_bind (rectangle_consumes l4) ?_
        intro a5 l5 _
        refine consumesLE_bind (get_u16_consumes l5) ?_
        intro a6 l6 _
        refine consumesLE_bind (rectangle_consumes l6) ?_
        intro a7 l7 _
        refine consumesLE_bind (get_u32_consumes l7) ?_
        intro a8 l8 _
        refine consumesLE_bind (get_u32_consumes l8) ?_
        intro mask_size l9 _
        split
        · exact consumesLE_panic
        · have hmask : ConsumesLE
              ((if mask_size > 0 then
                  match copy_bytes mask_size l9 with
                  | .ok (m, l1) =>
                      (.ok (some m, l1) : PRes (Option (List Nat) × List Nat))
                  | .err e => .err e
                  | .panic p => .panic p
                else .ok (none, l9))) l9 := by
            split
            · split
              · rename_i m lm hcopy
                exact consumesLE_ok (copy_bytes_le hcopy)
              · exact consumesLE_err
              · exact consumesLE_panic
            · exact consumesLE_ok le_rfl
          refine consumesLE_bind hmask ?_
          intro a10 l10 _
          refine consumesLE_bind (imgdesc_consumes l10) ?_
          intro idesc l11 _
          refine consumesLE_bind (copy_bytes_consumes idesc.data_size l11) ?_
          intro a12 l12 _
          split
          · exact consumesLE_panic
          · dsimp only
            split
            · exact consumesLE_panic
            · split
              · refine consumesLE_bind (skip_filler_consumes l12) ?_
                intro a13 l13 _
                exact consumesLE_ok le_rfl
              · exact consumesLE_ok le_rfl

lemma operation_parse_consumes (buf : List Nat) :
    ∀ a r, Operation.parse buf = .ok (a, r) → r.length < buf.length := by
  unfold Operation.parse
  dsimp only
  split
  · intro a r h
    exact absurd h (by simp)
  · intro a r h
    exact absurd h (by simp)
  · rename_i raw l1 hg
    have h1 := get_u16_len hg
    split
    · intro a r h
      exact absurd h (by simp)
    · rename_i opcode ho
      split
      · intro a r h
        exact absurd h (by simp)
      · intro a r h
        exact absurd h (by simp)
      · rename_i op1 rest1 hp
        have h2 : rest1.length ≤ l1.length :=
          operands_consumes opcode l1 op1 rest1 hp
        split
        · intro a r h
          exact absurd h (by simp)
        · split
          · intro a r h
            exact absurd h (by simp)
          · intro a r h
            simp only [PRes.ok.injEq, Prod.mk.injEq] at h
            obtain ⟨-, rfl⟩ := h
            omega

/-! ### `pict.rs`: the operation stream and `PICT::parse` -/

/-- One element of the `read_operations` stream: parse an operation; after
`OpEndPic`, a successful 1-byte read means trailing data and the stream
yields `DataRemaining` instead. -/
def next_operation (l : List Nat) : PRes (Operation × List Nat) :=
  match Operation.parse l with
  | .err e => .err e
  | .panic p => .panic p
  | .ok (op, rest) =>
      match op with
      | .OpEndPic => if rest.isEmpty then .ok (op, rest) else .err .dataRemaining
      | _ => .ok (op, rest)

/-- `PICT::expect_op`: take the next operation and fail with
`UnexpectedOpcode(op.opcode() as u16)` when its opcode is not the expected
one. -/
def expect_op (expected : Opcode) (l : List Nat) : PRes (Operation × List Nat) :=
  match next_operation l with
  | .err e => .err e
  | .panic p => .panic p
  | .ok (op, rest) =>
      if op.opcode ≠ expected then .err (.unexpectedOpcode op.opcode.toNat)
      else .ok (op, rest)

/-- The `PICT` enum of `pict.rs`; `RGB24` carries
`width = destination.right - destination.left` and
`height = destination.bottom - destination.top` (u16 wrapping subtraction,
zero-extended by `as usize`). -/
inductive PICT where
  | JPEG (data : List Nat)
  | RGB24 (width height : Nat) (data : List Nat)
deriving DecidableEq, Repr

/-- The `while let` loop of `PICT::parse` over the operation stream, with
explicit fuel (the loop consumes at least one input byte per iteration, so
`l.length + 1` fuel is always enough; fuel 0 is an unreachable sentinel).
`ret` holds the image found so far; a second image fires
`panic!("already got an image")`; `VersionOp`/`Version`/`HeaderOp` inside
the loop give `UnexpectedOpcode`; `OpEndPic` breaks and the function
returns `ret.ok_or(UnableToFindImage)`. -/
def assemble_fuel : Nat → Option PICT → List Nat → PRes PICT
  | 0, _, _ => .panic .eob
  | fuel + 1, ret, l =>
      match next_operation l with
      | .err e => .err e
      | .panic p => .panic p
      | .ok (op, rest) =>
          match op with
          | .OpEndPic =>
              match ret with
              | some img => .ok img
              | none => .err .unableToFindImage
          | .CompressedQuickTime _ _ _ _ _ _ _ data =>
              if ret.isSome then .panic .other
              else assemble_fuel fuel (some (.JPEG data)) rest
          | .DirectBitsRect _ _ destination _ pix_data =>
              if ret.isSome then .panic .other
              else assemble_fuel fuel
                (some (.RGB24
                  ((destination.right + 65536 - destination.left) % 65536)
                  ((destination.bottom + 65536 - destination.top) % 65536)
                  pix_data)) rest
          | .VersionOp => .err (.unexpectedOpcode (Opcode.toNat .VersionOp))
          | .Version => .err (.unexpectedOpcode (Opcode.toNat .Version))
          | .HeaderOp _ _ _ => .err (.unexpectedOpcode (Opcode.toNat .HeaderOp))
          | _ => assemble_fuel fuel ret rest

/-- The operation loop of `PICT::parse`, started with enough fuel. -/
def assemble (ret : Option PICT) (l : List Nat) : PRes PICT :=
  assemble_fuel (l.length + 1) ret l

/-- `PICT::parse`: 512-byte empty header (short read is an io error,
`Error::Reader`; a nonzero byte is `NonEmptyHeader`), a u16 size (read and
discarded), a bounding `Rectangle::parse` whose result — error included —
is discarded (it consumes its 8 bytes only when they are available), then
`expect_op` for `VersionOp`, `Version` and `HeaderOp`, the
`UnsupportedHeaderVersion` check for a header version other than -2, and
the operation loop. -/
def pict_parse (l : List Nat) : PRes PICT :=
  if l.length < 512 then .err .reader
  else if ¬ ((l.take 512).all (fun b => b == 0)) then .err .nonEmptyHeader
  else
    let l1 := l.drop 512
    if l1.length < 2 then .err .reader
    else
      let l2 := l1.drop 2
      let l3 := if l2.length < 8 then l2 else l2.drop 8
      match expect_op .VersionOp l3 with
      | .err e => .err e
      | .panic p => .panic p
      | .ok (_, l4) =>
          match expect_op .Version l4 with
          | .err e => .err e
          | .panic p => .panic p
          | .ok (_, l5) =>
              match expect_op .HeaderOp l5 with
              | .err e => .err e
              | .panic p => .panic p
              | .ok (op, l6) =>
                  match op with
                  | .HeaderOp v _ _ =>
                      if v ≠ -2 then .err (.unsupportedHeaderVersion v)
                      else assemble none l6
                  | _ => assemble none l6

/-! ### Stepping lemmas for the operation stream and the assembly loop -/

lemma next_operation_len {l : List Nat} {op : Operation} {rest : List Nat}
    (h : next_operation l = .ok (op, rest)) : rest.length < l.length := by
  unfold next_operation at h
  cases hp : Operation.parse l with
  | err e =>
      rw [hp] at h
      exact absurd h (by simp)
  | panic p =>
      rw [hp] at h
      exact absurd h (by simp)
  | ok a =>
      obtain ⟨op1, r1⟩ := a
      rw [hp] at h
      have hlt := operation_parse_consumes l op1 r1 hp
      cases op1
      case OpEndPic =>
        dsimp only at h
        split at h
        · simp only [PRes.ok.injEq, Prod.mk.injEq] at h
          obtain ⟨-, rfl⟩ := h
          exact hlt
        · exact absurd h (by simp)
      all_goals
        simp only [PRes.ok.injEq, Prod.mk.injEq] at h
      all_goals
        obtain ⟨-, rfl⟩ := h
      all_goals
        exact hlt

lemma expect_op_mismatch {l : List Nat} {op : Operation} {r : List Nat}
    {expected : Opcode} (h : next_operation l = .ok (op, r))
    (hne : op.opcode ≠ expected) :
    expect_op expected l = .err (.unexpectedOpcode op.opcode.toNat) := by
  unfold expect_op
  rw [h]
  dsimp only
  rw [if_pos hne]

lemma expect_op_found {l : List Nat} {op : Operation} {r : List Nat}
    {expected : Opcode} (h : next_operation l = .ok (op, r))
    (heq : op.opcode = expected) :
    expect_op expected l = .ok (op, r) := by
  unfold expect_op
  rw [h]
  dsimp only
  rw [if_neg (fun hc => hc heq)]

lemma pict_parse_preamble (l : List Nat) (h512 : 512 ≤ l.length)
    (hz : (l.take 512).all (fun b => b == 0) = true)
    (h2 : 2 ≤ (l.drop 512).length)
    (h8 : 8 ≤ ((l.drop 512).drop 2).length) :
    pict_parse l =
      match expect_op .VersionOp (((l.drop 512).drop 2).drop 8) with
      | .err e => .err e
      | .panic p => .panic p
      | .ok (_, l4) =>
          match expect_op .Version l4 with
          | .err e => .err e
          | .panic p => .panic p
          | .ok (_, l5) =>
              match expect_op .HeaderOp l5 with
              | .err e => .err e
              | .panic p => .panic p
              | .ok (op, l6) =>
                  match op with
                  | .HeaderOp v _ _ =>
                      if v ≠ -2 then .err (.unsupportedHeaderVersion v)
                      else assemble none l6
                  | _ => assemble none l6 := by
  unfold pict_parse
  rw [if_neg (by omega), if_neg (not_not_intro hz)]
  dsimp only
  rw [if_neg (by omega), if_neg (by omega)]

lemma assemble_fuel_irrel :
    ∀ (f1 f2 : Nat) (ret : Option PICT) (l : List Nat),
      l.length < f1 → l.length < f2 →
      assemble_fuel f1 ret l = assemble_fuel f2 ret l := by
  intro f1
  induction f1 with
  | zero =>
      intro f2 ret l h1 h2
      exact absurd h1 (Nat.not_lt_zero _)
  | succ fl ih =>
      intro f2 ret l h1 h2
      match f2, h2 with
      | fm + 1, h2 =>
        simp only [assemble_fuel]
        cases hno : next_operation l with
        | err e => rfl
        | panic p => rfl
        | ok a =>
            obtain ⟨op, rest⟩ := a
            have hrest : rest.length < l.length := next_operation_len hno
            cases op with
            | OpEndPic => rfl
            | VersionOp => rfl
            | Version => rfl
            | HeaderOp v res srect => rfl
            | DirectBitsRect pm srcr dst mode pd =>
                dsimp only
                split
                · rfl
                · exact ih _ _ _ (by omega) (by omega)
            | CompressedQuickTime v t mr mo srcr acc mask data =>
                dsimp only
                split
                · rfl
                · exact ih _ _ _ (by omega) (by omega)
            | Nop => exact ih _ _ _ (by omega) (by omega)
            | Clip sz bnd => exact ih _ _ _ (by omega) (by omega)
            | TxFont fo => exact ih _ _ _ (by omega) (by omega)
            | TxFace fa => exact ih _ _ _ (by omega) (by omega)
            | PnSize p => exact ih _ _ _ (by omega) (by omega)
            | TxSize v => exact ih _ _ _ (by omega) (by omega)
            | TxRatio n d => exact ih _ _ _ (by omega) (by omega)
            | DefHilite => exact ih _ _ _ (by omega) (by omega)
            | LongText loc txt => exact ih _ _ _ (by omega) (by omega)
            | LongComment k txt => exact ih _ _ _ (by omega) (by omega)

lemma assemble_step_dbr {l rest : List Nat} {pm : PixMap}
    {srcr dst : Rectangle} {mode : Nat} {pd : List Nat} (ret : Option PICT)
    (h : next_operation l = .ok (.DirectBitsRect pm srcr dst mode pd, rest)) :
    assemble ret l =
      if ret.isSome then .panic .other
      else assemble
        (some (.RGB24
          ((dst.right + 65536 - dst.left) % 65536)
          ((dst.bottom + 65536 - dst.top) % 65536)
          pd)) rest := by
  have hrest : rest.length < l.length := next_operation_len h
  show assemble_fuel (l.length + 1) ret l = _
  simp only [assemble_fuel]
  rw [h]
  dsimp only
  split
  · rfl
  · exact assemble_fuel_irrel _ _ _ _ (by omega) (by omega)

lemma assemble_step_cqt {l rest : List Nat} {v : Nat} {t : Matrix}
    {mr : Rectangle} {mo : Nat} {srcr : Rectangle} {acc : Nat}
    {mask : Option (List Nat)} {data : List Nat} (ret : Option PICT)
    (h : next_operation l =
      .ok (.CompressedQuickTime v t mr mo srcr acc mask data, rest)) :
    assemble ret l =
      if ret.isSome then .panic .other
      else assemble (some (.JPEG data)) rest := by
  have hrest : rest.length < l.length := next_operation_len h
  show assemble_fuel (l.length + 1) ret l = _
  simp only [assemble_fuel]
  rw [h]
  dsimp only
  split
  · rfl
  · exact assemble_fuel_irrel _ _ _ _ (by omega) (by omega)

lemma assemble_step_end_none {l rest : List Nat}
    (h : next_operation l = .ok (.OpEndPic, rest)) :
    assemble none l = .err .unableToFindImage := by
  show assemble_fuel (l.length + 1) none l = _
  simp only [assemble_fuel]
  rw [h]

lemma assemble_step_end_some {l rest : List Nat} {img : PICT}
    (h : next_operation l = .ok (.OpEndPic, rest)) :
    assemble (some img) l = .ok img := by
  show assemble_fuel (l.length + 1) (some img) l = _
  simp only [assemble_fuel]
  rw [h]

/-- C7: for a resource with at least 512 bytes, `PICT::parse` fails with
`NonEmptyHeader` unless the first 512 bytes are all zero; with a zero
header, after the u16 size and the 8 discarded bounding-rectangle bytes,
the first three operations must have opcodes `VersionOp`, `Version`,
`HeaderOp` in that order — any other opcode in one of those positions
yields `UnexpectedOpcode` with that opcode's tag — and a `HeaderOp`
version other than -2 yields `UnsupportedHeaderVersion`; with version -2
parsing proceeds into the operation loop. -/
theorem c7_pict_preamble (l : List Nat) (h512 : 512 ≤ l.length) :
    (¬ ((l.take 512).all (fun b => b == 0) = true) →
        pict_parse l = .err .nonEmptyHeader)
  ∧ ((l.take 512).all (fun b => b == 0) = true →
      2 ≤ (l.drop 512).length →
      8 ≤ ((l.drop 512).drop 2).length →
      ∀ op1 r1, next_operation (((l.drop 512).drop 2).drop 8) = .ok (op1, r1) →
        (op1.opcode ≠ .VersionOp →
          pict_parse l = .err (.unexpectedOpcode op1.opcode.toNat))
        ∧ (op1.opcode = .VersionOp →
          ∀ op2 r2, next_operation r1 = .ok (op2, r2) →
            (op2.opcode ≠ .Version →
              pict_parse l = .err (.unexpectedOpcode op2.opcode.toNat))
            ∧ (op2.opcode = .Version →
              ∀ op3 r3, next_operation r2 = .ok (op3, r3) →
                (op3.opcode ≠ .HeaderOp →
                  pict_parse l = .err (.unexpectedOpcode op3.opcode.toNat))
                ∧ (∀ v res srect, op3 = .HeaderOp v res srect →
                    (v ≠ -2 →
                      pict_parse l = .err (.unsupportedHeaderVersion v))
                    ∧ (v = -2 → pict_parse l = assemble none r3))))) := by
  constructor
  · intro hne
    unfold pict_parse
    rw [if_neg (by omega), if_pos hne]
  · intro hz h2 h8 op1 r1 hop1
    have hpp := pict_parse_preamble l h512 hz h2 h8
    constructor
    · intro hne1
      rw [hpp, expect_op_mismatch hop1 hne1]
    · intro heq1 op2 r2 hop2
      rw [expect_op_found hop1 heq1] at hpp
      dsimp only at hpp
      constructor
      · intro hne2
        rw [hpp, expect_op_mismatch hop2 hne2]
      · intro heq2 op3 r3 hop3
        rw [expect_op_found hop2 heq2] at hpp
        dsimp only at hpp
        constructor
        · intro hne3
          rw [hpp, expect_op_mismatch hop3 hne3]
        · intro v res srect heq3
          subst heq3
          rw [expect_op_found hop3
            (show (Operation.HeaderOp v res srect).opcode = Opcode.HeaderOp
              from rfl)] at hpp
          dsimp only at hpp
          constructor
          · intro hv
            rw [hpp, if_pos hv]
          · intro hv
            rw [hpp, if_neg (not_not_intro hv)]

set_option maxRecDepth 40000 in
theorem c7_witness :
    pict_parse (List.replicate 512 0 ++ [0, 0] ++ List.replicate 8 0 ++
        [0x00, 0x00]) =
      .err (.unexpectedOpcode 0) :=
  ((c7_pict_preamble _ (by decide)).2 (by rfl) (by decide) (by decide)
    .Nop [] (by rfl)).1 (by decide)

/-- C8: in the operation loop, a `DirectBitsRect` or `CompressedQuickTime`
operation arriving after an image was already produced does NOT yield a
returned error value: it aborts the process (`panic!("already got an
image")`, a panic outcome distinct from every returned error). With no
image yet, `DirectBitsRect` produces `RGB24` (width/height the u16
wrapping differences of the destination rectangle) and
`CompressedQuickTime` produces `JPEG(data)`; `OpEndPic` with no image
yields `UnableToFindImage`, and with an image completes with it. -/
theorem c8_single_image :
    (∀ (l rest : List Nat) (pm : PixMap) (srcr dst : Rectangle) (mode : Nat)
        (pd : List Nat) (img : PICT),
        next_operation l = .ok (.DirectBitsRect pm srcr dst mode pd, rest) →
        assemble (some img) l = .panic .other)
  ∧ (∀ (l rest : List Nat) (v : Nat) (t : Matrix) (mr : Rectangle) (mo : Nat)
        (srcr : Rectangle) (acc : Nat) (mask : Option (List Nat))
        (data : List Nat) (img : PICT),
        next_operation l =
          .ok (.CompressedQuickTime v t mr mo srcr acc mask data, rest) →
        assemble (some img) l = .panic .other)
  ∧ (∀ (l rest : List Nat) (pm : PixMap) (srcr dst : Rectangle) (mode : Nat)
        (pd : List Nat),
        next_operation l = .ok (.DirectBitsRect pm srcr dst mode pd, rest) →
        assemble none l =
          assemble (some (.RGB24
            ((dst.right + 65536 - dst.left) % 65536)
            ((dst.bottom + 65536 - dst.top) % 65536) pd)) rest)
  ∧ (∀ (l rest : List Nat) (v : Nat) (t : Matrix) (mr : Rectangle) (mo : Nat)
        (srcr : Rectangle) (acc : Nat) (mask : Option (List Nat))
        (data : List Nat),
        next_operation l =
          .ok (.CompressedQuickTime v t mr mo srcr acc mask data, rest) →
        assemble none l = assemble (some (.JPEG data)) rest)
  ∧ (∀ (l rest : List Nat),
        next_operation l = .ok (.OpEndPic, rest) →
        assemble none l = .err .unableToFindImage)
  ∧ (∀ (l rest : List Nat) (img : PICT),
        next_operation l = .ok (.OpEndPic, rest) →
        assemble (some img) l = .ok img)
  ∧ (∀ (p : Panic) (e : PError), (.panic p : PRes PICT) ≠ .err e) := by
  refine ⟨?_, ?_, ?_, ?_, ?_, ?_, ?_⟩
  · intro l rest pm srcr dst mode pd img h
    rw [assemble_step_dbr (some img) h,
      if_pos (show (some img).isSome = true from rfl)]
  · intro l rest v t mr mo srcr acc mask data img h
    rw [assemble_step_cqt (some img) h,
      if_pos (show (some img).isSome = true from rfl)]
  · intro l rest pm srcr dst mode pd h
    rw [assemble_step_dbr none h, if_neg (by simp)]
  · intro l rest v t mr mo srcr acc mask data h
    rw [assemble_step_cqt none h, if_neg (by simp)]
  · intro l rest h
    exact assemble_step_end_none h
  · intro l rest img h
    exact assemble_step_end_some h
  · intro p e hc
    exact PRes.noConfusion hc

theorem c8_witness :
    assemble none [0x00, 0xFF] = .err .unableToFindImage :=
  c8_single_image.2.2.2.2.1 [0x00, 0xFF] [] (by rfl)

set_option maxRecDepth 100000 in
theorem c8_counterexample :
    (pict_parse (List.replicate 512 0 ++ [0, 0] ++ List.replicate 8 0 ++
        [0x00, 0x11] ++ [0x02, 0xFF] ++
        ([0x0C, 0x00, 0xFF, 0xFE] ++ List.replicate 22 0) ++
        ([0x00, 0x9A] ++ [0, 0, 0, 0xFF] ++ [0, 0] ++ List.replicate 8 0 ++
          [0, 0] ++ [0, 1] ++ List.replicate 32 0 ++ List.replicate 18 0) ++
        ([0x00, 0x9A] ++ [0, 0, 0, 0xFF] ++ [0, 0] ++ List.replicate 8 0 ++
          [0, 0] ++ [0, 1] ++ List.replicate 32 0 ++ List.replicate 18 0) ++
        [0x00, 0xFF]) =
      .panic .other)
  ∧ ∀ e : PError,
      pict_parse (List.replicate 512 0 ++ [0, 0] ++ List.replicate 8 0 ++
        [0x00, 0x11] ++ [0x02, 0xFF] ++
        ([0x0C, 0x00, 0xFF, 0xFE] ++ List.replicate 22 0) ++
        ([0x00, 0x9A] ++ [0, 0, 0, 0xFF] ++ [0, 0] ++ List.replicate 8 0 ++
          [0, 0] ++ [0, 1] ++ List.replicate 32 0 ++ List.replicate 18 0) ++
        ([0x00, 0x9A] ++ [0, 0, 0, 0xFF] ++ [0, 0] ++ List.replicate 8 0 ++
          [0, 0] ++ [0, 1] ++ List.replicate 32 0 ++ List.replicate 18 0) ++
        [0x00, 0xFF]) ≠
        .err e := by
  constructor
  · rfl
  · intro e hc
    rw [show pict_parse (List.replicate 512 0 ++ [0, 0] ++
        List.replicate 8 0 ++ [0x00, 0x11] ++ [0x02, 0xFF] ++
        ([0x0C, 0x00, 0xFF, 0xFE] ++ List.replicate 22 0) ++
        ([0x00, 0x9A] ++ [0, 0, 0, 0xFF] ++ [0, 0] ++ List.replicate 8 0 ++
          [0, 0] ++ [0, 1] ++ List.replicate 32 0 ++ List.replicate 18 0) ++
        ([0x00, 0x9A] ++ [0, 0, 0, 0xFF] ++ [0, 0] ++ List.replicate 8 0 ++
          [0, 0] ++ [0, 1] ++ List.replicate 32 0 ++ List.replicate 18 0) ++
        [0x00, 0xFF]) = .panic .other from rfl] at hc
    exact PRes.noConfusion hc

/-- C9: a `LongComment` with an odd payload size — here the recognised tag
0x00A1, kind 0, size 1 and one payload byte, a well-formed comment per the
opcode table — consumes an odd total (7 bytes: 2 tag + 2 kind + 2 size +
1 payload, no filler is read) and the parser's 2-byte alignment assertion
aborts the process instead of completing the parse, refuting the claimed
invariant that every opcode parse consumes an even byte count. -/
theorem c9_longcomment_alignment :
    Operation.parse [0x00, 0xA1, 0x00, 0x00, 0x00, 0x01, 0x41] =
      .panic .assertAlign := by
  rfl

end Pict
